import Mathlib

/-!
Verification of the HUNTX aggregator core against its specification.

The Python sources under `src/huntx` (state repository, pipelines, proxy-URI
canonicalizer) are shallowly embedded below: SQL queries become list
operations, dicts become structures or association lists, bytes become
`List Nat`, and Python `str` becomes `List Char`.  Definitions are named
after the source functions they embed.  Theorems about the embedded
operations follow after all definitions.
-/

/-! ## Generic list utilities -/

/-- Index of the last occurrence of `c` in `s` (Python `str.rfind` returning
an index; `none` models the `-1` result). -/
def lastIdxOf (c : Char) (s : List Char) : Option Nat :=
  match s with
  | [] => none
  | a :: as =>
    match lastIdxOf c as with
    | some k => some (k + 1)
    | none => if a = c then some 0 else none

/-- Maximum of a list of naturals, `none` on the empty list
(models SQL `MAX(id)` over a group). -/
def maxList : List Nat → Option Nat
  | [] => none
  | x :: xs =>
    match maxList xs with
    | none => some x
    | some m => some (max x m)

/-- Insert `x` into a list sorted ascending by `key` (auxiliary for the
embedding of SQL `ORDER BY`). -/
def insertSorted (key : α → Nat) (x : α) : List α → List α
  | [] => [x]
  | y :: ys => if key x ≤ key y then x :: y :: ys else y :: insertSorted key x ys

/-- Insertion sort ascending by `key` (embeds SQL `ORDER BY key ASC`). -/
def sortByKey (key : α → Nat) : List α → List α
  | [] => []
  | x :: xs => insertSorted key x (sortByKey key xs)

/-! ## State repository: data model

Rows of the `seen_files` and `records` tables, as created by
`schema` in §3 of the design (the columns used by `StateRepo`). -/

/-- A row of the `seen_files` table. -/
structure SeenRow where
  id : Nat
  sourceId : String
  externalId : String
  rawHash : String
  fileSize : Nat
  filename : String
  status : String
  errorMsg : Option String
  metadataJson : String
deriving DecidableEq

/-- A row of the `records` table. -/
structure RecordRow where
  id : Nat
  sourceFileHash : String
  recordType : String
  uniqueHash : String
  dataJson : String
  isActive : Bool
deriving DecidableEq

/-- A row of the `published_artifacts` table.  Rows are kept in insertion
order; `published_at` increases with insertion, so the last matching row is
the most recently published one. -/
structure PubRow where
  routeName : String
  artifactHash : String
  metadataJson : String
deriving DecidableEq

/-- The relational state owned by `StateRepo`. -/
structure DBState where
  seenFiles : List SeenRow
  records : List RecordRow
  published : List PubRow
deriving DecidableEq

/-! ## StateRepo.get_records_for_build

Embedding of the SQL query in `src/huntx/state/repo.py` (lines 169-216):

the `filtered` CTE joins `records r` to `seen_files s` on
`r.source_file_hash = s.raw_hash`, filtered by record type, source id,
`is_active = 1` and (when given) `s.id > min_seen_file_id`; the `dedup` CTE
keeps `MAX(id)` per `(record_type, unique_hash)` group; the final select
joins back on `keep_id = f.id` and orders by `f.id` ascending. -/

/-- One output row of `get_records_for_build` (the projection
`record_type, data_json`). -/
structure BuildOutRow where
  recordType : String
  dataJson : String
deriving DecidableEq

/-- The `filtered` CTE: the join of `records` and `seen_files` with the
WHERE clause applied.  Each element keeps both joined rows. -/
def filteredJoin (db : DBState) (recordTypes allowedSourceIds : List String)
    (minSeenFileId : Option Nat) : List (RecordRow × SeenRow) :=
  db.records.flatMap fun r =>
    (db.seenFiles.filter fun s =>
      decide (r.sourceFileHash = s.rawHash) &&
      decide (r.recordType ∈ recordTypes) &&
      decide (s.sourceId ∈ allowedSourceIds) &&
      r.isActive &&
      (match minSeenFileId with
       | none => true
       | some m => decide (s.id > m))).map fun s => (r, s)

/-- The `dedup` CTE: `MAX(id)` over a `(record_type, unique_hash)` group of
the filtered join. -/
def keepIdFor (flt : List (RecordRow × SeenRow)) (rt uh : String) : Option Nat :=
  maxList ((flt.filter fun p => p.1.recordType = rt ∧ p.1.uniqueHash = uh).map
    fun p => p.1.id)

/-- The final select before projection: filtered rows whose record id equals
their group's `keep_id`, ordered ascending by record id.  `records.id` is
the AUTOINCREMENT primary key, so an id determines its
`(record_type, unique_hash)` group and the SQL join back on
`keep_id = f.id` is the filter below. -/
def keptRowsSorted (db : DBState) (recordTypes allowedSourceIds : List String)
    (minSeenFileId : Option Nat) : List (RecordRow × SeenRow) :=
  let flt := filteredJoin db recordTypes allowedSourceIds minSeenFileId
  sortByKey (fun p => p.1.id)
    (flt.filter fun p => keepIdFor flt p.1.recordType p.1.uniqueHash = some p.1.id)

/-- `StateRepo.get_records_for_build`: the guard on empty argument lists,
then the query above projected to `(record_type, data_json)`. -/
def getRecordsForBuild (db : DBState) (recordTypes allowedSourceIds : List String)
    (minSeenFileId : Option Nat) : List BuildOutRow :=
  if recordTypes = [] ∨ allowedSourceIds = [] then []
  else
    (keptRowsSorted db recordTypes allowedSourceIds minSeenFileId).map fun p =>
      { recordType := p.1.recordType, dataJson := p.1.dataJson }

/-! ## Orchestrator cutoff and BuildPipeline fetch -/

/-- `Orchestrator._get_seen_file_max_id`: `SELECT COALESCE(MAX(id), 0) FROM
seen_files`. -/
def getSeenFileMaxId (db : DBState) : Nat :=
  (maxList (db.seenFiles.map fun s => s.id)).getD 0

/-- The route dictionary the orchestrator hands to the build pipeline
(`Orchestrator.run`, orchestrator.py lines 495-500). -/
structure RouteDict where
  name : String
  formats : List String
  fromSources : List String
  minSeenFileId : Option Nat
deriving DecidableEq

/-- `Orchestrator.run` builds the route dict with
`min_seen_file_id = seen_file_cutoff_id` where the cutoff is the maximum
`seen_files.id` captured before phase 1. -/
def orchestratorRouteDict (name : String) (formats fromSources : List String)
    (cutoff : Nat) : RouteDict :=
  { name := name, formats := formats, fromSources := fromSources,
    minSeenFileId := some cutoff }

/-- The record fetch performed by `BuildPipeline.run` (build.py line 240):
`self.state_repo.get_records_for_build(formats, allowed_source_ids)` — the
`min_seen_file_id` entry of the route dict is never read, so the repository
method is called with its default `None`. -/
def buildPipelineFetch (route : RouteDict) (db : DBState) : List BuildOutRow :=
  getRecordsForBuild db route.formats route.fromSources none

/-! ## StateRepo: published-artifact log and seen-file status -/

/-- `StateRepo.get_last_published_hash`: the `artifact_hash` of the most
recent `published_artifacts` row for `route_name` (`ORDER BY published_at
DESC LIMIT 1`; rows are stored in insertion order here, so the last matching
row is the most recent). -/
def getLastPublishedHash (log : List PubRow) (routeName : String) : Option String :=
  ((log.filter fun r => r.routeName = routeName).getLast?).map fun r => r.artifactHash

/-- `StateRepo.mark_published`: append one `published_artifacts` row. -/
def markPublished (log : List PubRow) (routeName artifactHash : String)
    (metadataJson : String) : List PubRow :=
  log ++ [{ routeName := routeName, artifactHash := artifactHash,
            metadataJson := metadataJson }]

/-- `StateRepo.update_file_status`: `UPDATE seen_files SET status = ?,
error_msg = ? WHERE raw_hash = ?`. -/
def updateFileStatus (db : DBState) (rawHash status : String)
    (errorMsg : Option String) : DBState :=
  { db with seenFiles := db.seenFiles.map fun s =>
      if s.rawHash = rawHash then { s with status := status, errorMsg := errorMsg }
      else s }

/-- `StateRepo.update_file_status_batch`: `executemany` of the same UPDATE,
one execution per `(status, error_msg, raw_hash)` tuple, in list order. -/
def updateFileStatusBatch (db : DBState)
    (updates : List (String × Option String × String)) : DBState :=
  updates.foldl (fun d u => updateFileStatus d u.2.2 u.1 u.2.1) db

/-! ## PublishPipeline.run

Embedding of `src/huntx/pipeline/publish.py`.  Network publishing is
external: whether the upload to the destination at index `i` succeeds
(`pub.publish` returns) or fails (raises) is supplied as `uploadOk i`. -/

/-- The formats uploaded as `.zip` (`_ZIP_FORMATS` in publish.py); the same
set as `StateRepo._BLOB_DEPENDENT_FORMATS`. -/
def zipFormats : List String :=
  ["ovpn", "opaque_bundle", "ehi", "hc", "hat", "sip", "npv4", "nm", "dark"]

/-- The empty-ZIP size threshold (`_EMPTY_ZIP_THRESHOLD`). -/
def emptyZipThreshold : Nat := 22

/-- A build result as consumed by the publish pipeline. -/
structure BuildResultIn where
  routeName : String
  format : String
  uniqueId : String
  artifactHash : String
  data : List Nat
  count : Nat
deriving DecidableEq

/-- A destination dictionary of a route.  The `token` entry distinguishes an
absent key (`none`) from a key present with value `None` (`some none`):
`dest.get("token", default_token)` falls back to the default only when the
key is absent, and the orchestrator always includes the key. -/
structure Dest where
  chatId : String
  captionTemplate : String
  token : Option (Option String)
deriving DecidableEq

/-- What a `PublishPipeline.run` call did: which destination indices it
attempted to upload to, which succeeded, whether `mark_published` ran, and
the resulting `published_artifacts` log. -/
structure PublishOutcome where
  attempts : List Nat
  successes : List Nat
  marked : Bool
  log : List PubRow
deriving DecidableEq

/-- The destination loop of `PublishPipeline.run`: resolve the token
(destination field, else the default), skip the destination when no token,
otherwise attempt the upload; `published_any` becomes true when at least one
upload returns without raising. -/
def publishDestLoop (dests : List Dest) (defaultToken : Option String)
    (uploadOk : Nat → Bool) : List Nat × List Nat :=
  let idx := (List.range dests.length).zip dests
  let attempts := (idx.filter fun p =>
    (match p.2.token with
     | none => defaultToken
     | some t => t).isSome).map fun p => p.1
  (attempts, attempts.filter fun i => uploadOk i)

/-- `PublishPipeline.run`: skip minimal ZIP artifacts, skip when the last
published hash for `unique_id` equals the new artifact hash, otherwise
attempt every destination and `mark_published` iff at least one upload
succeeded. -/
def publishRun (log : List PubRow) (br : BuildResultIn) (dests : List Dest)
    (defaultToken : Option String) (uploadOk : Nat → Bool) : PublishOutcome :=
  if br.format ∈ zipFormats ∧ br.data.length ≤ emptyZipThreshold then
    { attempts := [], successes := [], marked := false, log := log }
  else if getLastPublishedHash log br.uniqueId = some br.artifactHash then
    { attempts := [], successes := [], marked := false, log := log }
  else
    let (attempts, successes) := publishDestLoop dests defaultToken uploadOk
    let marked := decide (successes ≠ [])
    { attempts := attempts, successes := successes, marked := marked,
      log := if marked then markPublished log br.uniqueId br.artifactHash "\x7b\x7d" else log }

/-! ## BuildPipeline.run: the per-format drop decision

Embedding of build.py lines 278-298: after `handler.build` produced
`artifact_bytes`, the artifact is dropped when the bytes are empty or when
`len(artifact_bytes) <= _EMPTY_ZIP_THRESHOLD` (the threshold test is applied
to every format); otherwise `save_artifact` and `save_output` run and the
build result is emitted (for `npvt`/`npvtsub`, derived artifacts follow in
the same branch). -/

/-- Outcome of processing one format inside `BuildPipeline.run`: either the
artifact is dropped (no persistence, no emitted result), or it is persisted
through `save_artifact` and `save_output` and emitted. -/
inductive BuildStepOutcome where
  | dropped
  | persisted (savedArtifact : Bool) (savedOutput : Bool) (emitted : Bool)
deriving DecidableEq

/-- The drop decision of `BuildPipeline.run` for one format. -/
def buildFormatStep (artifactBytes : List Nat) : BuildStepOutcome :=
  if artifactBytes = [] then .dropped
  else if artifactBytes.length ≤ emptyZipThreshold then .dropped
  else .persisted true true true

/-- The drop criterion the claim asserts: empty bytes, or a bundle format of
at most 22 bytes (a text-format artifact of 22 bytes or fewer would be
kept). -/
def claimedDropCriterion (fmt : String) (artifactBytes : List Nat) : Prop :=
  artifactBytes = [] ∨ (fmt ∈ zipFormats ∧ artifactBytes.length ≤ emptyZipThreshold)

instance (fmt : String) (bs : List Nat) : Decidable (claimedDropCriterion fmt bs) := by
  unfold claimedDropCriterion; infer_instance

/-! ## SHA-256 (`hashlib.sha256(...).hexdigest()`)

Executable embedding of the hash used by `formats/common/hashing.py` and
`RawStore.save`.  Words are naturals reduced modulo `2 ^ 32`. -/

/-- Reduce to a 32-bit word. -/
def w32 (n : Nat) : Nat := n % 4294967296

/-- Bitwise complement within 32 bits. -/
def not32 (x : Nat) : Nat := w32 (x ^^^ 4294967295)

/-- Right rotation of a 32-bit word. -/
def rotr32 (n x : Nat) : Nat := w32 ((x >>> n) ||| (x <<< (32 - n)))

def sha256Ch (e f g : Nat) : Nat := (e &&& f) ^^^ (not32 e &&& g)

def sha256Maj (a b c : Nat) : Nat := (a &&& b) ^^^ (a &&& c) ^^^ (b &&& c)

def bigSigma0 (a : Nat) : Nat := rotr32 2 a ^^^ rotr32 13 a ^^^ rotr32 22 a

def bigSigma1 (e : Nat) : Nat := rotr32 6 e ^^^ rotr32 11 e ^^^ rotr32 25 e

def smallSigma0 (x : Nat) : Nat := rotr32 7 x ^^^ rotr32 18 x ^^^ (x >>> 3)

def smallSigma1 (x : Nat) : Nat := rotr32 17 x ^^^ rotr32 19 x ^^^ (x >>> 10)

/-- The 64 SHA-256 round constants (FIPS 180-4, written in decimal). -/
def sha256K : List Nat :=
  [1116352408, 1899447441, 3049323471, 3921009573,
   961987163, 1508970993, 2453635748, 2870763221,
   3624381080, 310598401, 607225278, 1426881987,
   1925078388, 2162078206, 2614888103, 3248222580,
   3835390401, 4022224774, 264347078, 604807628,
   770255983, 1249150122, 1555081692, 1996064986,
   2554220882, 2821834349, 2952996808, 3210313671,
   3336571891, 3584528711, 113926993, 338241895,
   666307205, 773529912, 1294757372, 1396182291,
   1695183700, 1986661051, 2177026350, 2456956037,
   2730485921, 2820302411, 3259730800, 3345764771,
   3516065817, 3600352804, 4094571909, 275423344,
   430227734, 506948616, 659060556, 883997877,
   958139571, 1322822218, 1537002063, 1747873779,
   1955562222, 2024104815, 2227730452, 2361852424,
   2428436474, 2756734187, 3204031479, 3329325298]

/-- The SHA-256 initial hash value (FIPS 180-4, written in decimal). -/
def sha256H0 : List Nat :=
  [1779033703, 3144134277, 1013904242, 2773480762,
   1359893119, 2600822924, 528734635, 1541459225]

/-- Group bytes into big-endian 32-bit words. -/
def bytesToWords : List Nat → List Nat
  | a :: b :: c :: d :: rest => (((a * 256 + b) * 256 + c) * 256 + d) :: bytesToWords rest
  | _ => []

/-- Big-endian 8-byte encoding of a length in bits. -/
def be64 (n : Nat) : List Nat :=
  [(n >>> 56) % 256, (n >>> 48) % 256, (n >>> 40) % 256, (n >>> 32) % 256,
   (n >>> 24) % 256, (n >>> 16) % 256, (n >>> 8) % 256, n % 256]

/-- SHA-256 message padding. -/
def sha256Pad (msg : List Nat) : List Nat :=
  let L := msg.length
  msg ++ [0x80] ++ List.replicate ((119 - L % 64) % 64) 0 ++ be64 (L * 8)

/-- Split into 64-byte blocks. -/
def chunks64 (bs : List Nat) : List (List Nat) :=
  if h : bs = [] then []
  else bs.take 64 :: chunks64 (bs.drop 64)
termination_by bs.length
decreasing_by
  simp only [List.length_drop]
  exact Nat.sub_lt (List.length_pos.mpr h) (by norm_num)

/-- Extend a 16-word block by one scheduled word. -/
def scheduleStep (w : List Nat) : List Nat :=
  let n := w.length
  w ++ [w32 (smallSigma1 (w.getD (n - 2) 0) + w.getD (n - 7) 0 +
             smallSigma0 (w.getD (n - 15) 0) + w.getD (n - 16) 0)]

/-- The 64-word message schedule of a block. -/
def sha256Schedule (block : List Nat) : List Nat :=
  (List.range 48).foldl (fun acc _ => scheduleStep acc) (bytesToWords block)

/-- One SHA-256 compression round. -/
def sha256Round (w : List Nat) (st : List Nat) (i : Nat) : List Nat :=
  match st with
  | [a, b, c, d, e, f, g, h] =>
    let t1 := w32 (h + bigSigma1 e + sha256Ch e f g + sha256K.getD i 0 + w.getD i 0)
    let t2 := w32 (bigSigma0 a + sha256Maj a b c)
    [w32 (t1 + t2), a, b, c, w32 (d + t1), e, f, g]
  | other => other

/-- Compress one 64-byte block into the running hash state. -/
def sha256Compress (hs : List Nat) (block : List Nat) : List Nat :=
  let w := sha256Schedule block
  let fin := (List.range 64).foldl (sha256Round w) hs
  (hs.zip fin).map fun p => w32 (p.1 + p.2)

def hexDigitChar (n : Nat) : Char :=
  if n < 10 then Char.ofNat (48 + n) else Char.ofNat (87 + n)

/-- Lowercase hex of a 32-bit word (8 digits). -/
def wordToHex (x : Nat) : List Char :=
  [hexDigitChar ((x >>> 28) % 16), hexDigitChar ((x >>> 24) % 16),
   hexDigitChar ((x >>> 20) % 16), hexDigitChar ((x >>> 16) % 16),
   hexDigitChar ((x >>> 12) % 16), hexDigitChar ((x >>> 8) % 16),
   hexDigitChar ((x >>> 4) % 16), hexDigitChar (x % 16)]

/-- `hashlib.sha256(data).hexdigest()` over raw bytes. -/
def sha256Hex (data : List Nat) : List Char :=
  ((chunks64 (sha256Pad data)).foldl sha256Compress sha256H0).flatMap wordToHex

/-! ## UTF-8 encoding (`str.encode("utf-8")`) -/

/-- UTF-8 encoding of one unicode scalar value. -/
def utf8EncodeChar (c : Char) : List Nat :=
  let n := c.toNat
  if n < 0x80 then [n]
  else if n < 0x800 then [0xc0 + n / 64, 0x80 + n % 64]
  else if n < 0x10000 then [0xe0 + n / 4096, 0x80 + (n / 64) % 64, 0x80 + n % 64]
  else [0xf0 + n / 262144, 0x80 + (n / 4096) % 64, 0x80 + (n / 64) % 64, 0x80 + n % 64]

/-- `str.encode("utf-8")`. -/
def utf8Encode (s : List Char) : List Nat := s.flatMap utf8EncodeChar

/-- `hash_string` from `formats/common/hashing.py`:
`sha256(text.encode("utf-8")).hexdigest()`. -/
def hashString (text : List Char) : List Char := sha256Hex (utf8Encode text)

/-- `hash_bytes` as used by `RawStore.save`, returned as a `String` for the
relational model. -/
def sha256HexString (data : List Nat) : String := String.mk (sha256Hex data)

/-! ## IngestionPipeline (`src/huntx/pipeline/ingest.py`)

The connector is external: its lazy iteration is modelled as a list of
events, each either a yielded item or the exception that iteration raises at
that point.  The whole `run` executes inside one
`with self.state_repo.db.connect() as conn:` block whose context manager
(state/db.py) commits on normal exit and rolls back when an exception
escapes; raw-blob writes go to disk and are not rolled back. -/

/-- An item yielded by `connector.list_new`, with the metadata fields
`_process_batch` reads (`filename`, `is_text`) and the serialized metadata
dict. -/
structure IngestItem where
  externalId : String
  data : List Nat
  filenameMeta : Option String
  isTextMeta : Bool
  metadataJson : String
deriving DecidableEq

/-- One step of connector iteration: a yielded item, or the exception the
iteration raises at this point. -/
inductive ConnEvent where
  | item (it : IngestItem)
  | err (msg : String)
deriving DecidableEq

/-- The content-addressed raw-blob store (hash to bytes). -/
structure RawStoreState where
  blobs : List (String × List Nat)
deriving DecidableEq

/-- `RawStore.save`: hash the bytes with SHA-256, write the blob unless a
file for that hash already exists, return the hex hash. -/
def rawStoreSave (st : RawStoreState) (data : List Nat) : RawStoreState × String :=
  let h := sha256HexString data
  if st.blobs.any fun p => p.1 = h then (st, h)
  else ({ blobs := st.blobs ++ [(h, data)] }, h)

/-- Modelled from the spec: `StateRepo.get_seen_files_batch(source_id, ids)`
— declared in §4.C as a batched presence check; the method body is absent
from the `huntx` sources (only its caller in the ingestion pipeline and its
test mocks exist).  Returns the sublist of `ids` already recorded for
`source_id`. -/
def getSeenFilesBatch (db : DBState) (sourceId : String) (ids : List String) :
    List String :=
  ids.filter fun e =>
    db.seenFiles.any fun s => decide (s.sourceId = sourceId) && decide (s.externalId = e)

/-- The next auto-increment `seen_files.id`. -/
def nextSeenId (db : DBState) : Nat :=
  (maxList (db.seenFiles.map fun s => s.id)).getD 0 + 1

/-- Modelled from the spec: one row insert of
`StateRepo.record_files_batch` — declared in §4.C with `INSERT OR IGNORE`
semantics on `(source_id, external_id)`; the method body is absent from the
`huntx` sources.  The row tuple is
`(source_id, external_id, raw_hash, file_size, filename, status,
metadata_json)`. -/
def recordFileIgnore (db : DBState)
    (row : String × String × String × Nat × String × String × String) : DBState :=
  let (sourceId, externalId, rawHash, fileSize, filename, status, metadataJson) := row
  if db.seenFiles.any fun s =>
      decide (s.sourceId = sourceId) && decide (s.externalId = externalId) then db
  else
    { db with seenFiles := db.seenFiles ++
        [{ id := nextSeenId db, sourceId := sourceId, externalId := externalId,
           rawHash := rawHash, fileSize := fileSize, filename := filename,
           status := status, errorMsg := none, metadataJson := metadataJson }] }

/-- Modelled from the spec: `StateRepo.record_files_batch` — the batched
`INSERT OR IGNORE`, one row at a time in list order. -/
def recordFilesBatch (db : DBState)
    (rows : List (String × String × String × Nat × String × String × String)) :
    DBState :=
  rows.foldl recordFileIgnore db

/-- Counters returned by `IngestionPipeline._process_batch`:
`(processed, new_bytes, skipped, text, media)`. -/
structure BatchCounts where
  newItems : Nat
  newBytes : Nat
  skipped : Nat
  textItems : Nat
  mediaItems : Nat
deriving DecidableEq

/-- Add counters pointwise. -/
def addCounts (a b : BatchCounts) : BatchCounts :=
  { newItems := a.newItems + b.newItems, newBytes := a.newBytes + b.newBytes,
    skipped := a.skipped + b.skipped, textItems := a.textItems + b.textItems,
    mediaItems := a.mediaItems + b.mediaItems }

/-- `IngestionPipeline._process_batch`: batch-check seen external ids, save
the raw blob of each unseen item, accumulate its pending `seen_files` row,
then batch-insert the rows. -/
def processBatch (sourceId : String) (buffer : List IngestItem)
    (db : DBState) (store : RawStoreState) :
    DBState × RawStoreState × BatchCounts :=
  if buffer = [] then (db, store, ⟨0, 0, 0, 0, 0⟩)
  else
    let seenIds := getSeenFilesBatch db sourceId (buffer.map fun it => it.externalId)
    let step := fun (acc : RawStoreState ×
        List (String × String × String × Nat × String × String × String) ×
        BatchCounts) (it : IngestItem) =>
      let (st, rows, cnt) := acc
      if it.externalId ∈ seenIds then
        (st, rows, { cnt with skipped := cnt.skipped + 1 })
      else
        let filename := it.filenameMeta.getD "unknown"
        let fileSize := it.data.length
        let isText := it.isTextMeta || filename.endsWith ".txt"
        let (st1, rawHash) := rawStoreSave st it.data
        (st1,
         rows ++ [(sourceId, it.externalId, rawHash, fileSize, filename,
                   "pending", it.metadataJson)],
         { cnt with
            newItems := cnt.newItems + 1,
            newBytes := cnt.newBytes + fileSize,
            textItems := cnt.textItems + (if isText then 1 else 0),
            mediaItems := cnt.mediaItems + (if isText then 0 else 1) })
    let (st1, rows, cnt) := buffer.foldl step (store, [], ⟨0, 0, 0, 0, 0⟩)
    (recordFilesBatch db rows, st1, cnt)

/-- A row of the `source_state` table (the stats block is the structured
part `IngestionPipeline.run` writes). -/
structure SourceStateRow where
  sourceId : String
  sourceType : String
  connState : String
  totalFiles : Nat
  lastRun : BatchCounts
deriving DecidableEq

/-- The source-state table kept alongside the rest of the relational
state. -/
structure SourceTable where
  rows : List SourceStateRow
deriving DecidableEq

/-- `StateRepo.update_source_state`: upsert on `source_id`. -/
def updateSourceState (tbl : SourceTable) (row : SourceStateRow) : SourceTable :=
  if tbl.rows.any fun r => r.sourceId = row.sourceId then
    { rows := tbl.rows.map fun r => if r.sourceId = row.sourceId then row else r }
  else { rows := tbl.rows ++ [row] }

/-- The result of a successful `IngestionPipeline.run`. -/
structure IngestOutcome where
  db : DBState
  sourceTable : SourceTable
  store : RawStoreState
  counts : BatchCounts
deriving DecidableEq

/-- The ingestion batch size (`BATCH_SIZE = 100`). -/
def ingestBatchSize : Nat := 100

/-- The connector-drain loop of `IngestionPipeline.run`: consume events,
buffer items, flush every `BATCH_SIZE` items, stop early when the deadline
check fires, and flush the remaining buffer after the loop.  A connector
exception leaves the loop through the `except` handler, which re-raises; the
error value carries the raw-store state (disk writes persist) while the
database changes of the surrounding transaction are discarded by the
caller. -/
def ingestLoop (sourceId : String) (deadlineHit : Nat → Bool) :
    List ConnEvent → Nat → List IngestItem → DBState → RawStoreState →
    BatchCounts → Except (String × RawStoreState) (DBState × RawStoreState × BatchCounts)
  | [], _, buffer, db, store, cnt =>
    let (db1, store1, c) := processBatch sourceId buffer db store
    .ok (db1, store1, addCounts cnt c)
  | .err m :: _, _, _, _, store, _ => .error (m, store)
  | .item it :: rest, k, buffer, db, store, cnt =>
    if deadlineHit k then
      let (db1, store1, c) := processBatch sourceId buffer db store
      .ok (db1, store1, addCounts cnt c)
    else
      let buffer1 := buffer ++ [it]
      if ingestBatchSize ≤ buffer1.length then
        let (db1, store1, c) := processBatch sourceId buffer1 db store
        ingestLoop sourceId deadlineHit rest (k + 1) [] db1 store1 (addCounts cnt c)
      else ingestLoop sourceId deadlineHit rest (k + 1) buffer1 db store cnt

/-- `IngestionPipeline.run`: read prior source state, drain the connector
with batched flushing, then merge the stats block and upsert the source
state.  All database work happens in one transaction: when the connector
raises, the exception propagates and the transaction rolls back, so the
error case surfaces the original database next to the (not rolled back)
raw-blob store. -/
def ingestRun (db0 : DBState) (tbl0 : SourceTable) (store0 : RawStoreState)
    (sourceId : String) (events : List ConnEvent) (deadlineHit : Nat → Bool)
    (connStateAfter : String) (sourceType : String) :
    Except (String × DBState × SourceTable × RawStoreState) IngestOutcome :=
  let priorTotal := ((tbl0.rows.find? fun r => r.sourceId = sourceId).map
    fun r => r.totalFiles).getD 0
  match ingestLoop sourceId deadlineHit events 0 [] db0 store0 ⟨0, 0, 0, 0, 0⟩ with
  | .error (m, store1) => .error (m, db0, tbl0, store1)
  | .ok (db1, store1, cnt) =>
    let newRow : SourceStateRow :=
      { sourceId := sourceId, sourceType := sourceType,
        connState := connStateAfter,
        totalFiles := priorTotal + cnt.newItems, lastRun := cnt }
    .ok { db := db1, sourceTable := updateSourceState tbl0 newRow,
          store := store1, counts := cnt }

/-! ## Python string primitives over `List Char` -/

/-- The ASCII whitespace stripped by `str.strip()` (the Unicode-only space
code points are outside the ASCII inputs treated here). -/
def isPySpace (c : Char) : Bool := c.toNat ∈ [9, 10, 11, 12, 13, 32]

/-- `str.strip()`. -/
def pyStrip (s : List Char) : List Char :=
  ((s.dropWhile isPySpace).reverse.dropWhile isPySpace).reverse

/-- The line boundaries of `str.splitlines()`. -/
def isLineBreakChar (c : Char) : Bool :=
  c.toNat ∈ [10, 11, 12, 13, 28, 29, 30, 133, 8232, 8233]

/-- Worker for `pySplitlines`: accumulate the current line (reversed); a
`\r\n` pair is one boundary; no trailing empty line is produced. -/
def splitlinesGo : List Char → List Char → List (List Char)
  | [], acc => [acc.reverse]
  | c :: rest, acc =>
    if isLineBreakChar c then
      if c = '\r' ∧ rest.headD 'x' = '\n' then
        acc.reverse :: (if rest.tail = [] then [] else splitlinesGo rest.tail [])
      else
        acc.reverse :: (if rest = [] then [] else splitlinesGo rest [])
    else splitlinesGo rest (c :: acc)
termination_by s _ => s.length
decreasing_by
  all_goals simp only [List.length_cons, List.length_tail] <;> omega

/-- `str.splitlines()`: no trailing empty line, empty string gives `[]`. -/
def pySplitlines (s : List Char) : List (List Char) :=
  if s = [] then [] else splitlinesGo s []

/-- ASCII lowercasing (`str.lower()`; identity beyond ASCII, which is all
the scheme prefixes need). -/
def lowerAsciiChar (c : Char) : Char :=
  if 65 ≤ c.toNat ∧ c.toNat ≤ 90 then Char.ofNat (c.toNat + 32) else c

def lowerAscii (s : List Char) : List Char := s.map lowerAsciiChar

/-- Python substring test `pat in s`. -/
def containsSeq (pat s : List Char) : Bool :=
  (List.range (s.length + 1)).any fun i => pat.isPrefixOf (s.drop i)

/-- Index of the first occurrence of `pat` in `s` (`str.find` when the
pattern occurs). -/
def firstIdxOfSeq (pat s : List Char) : Option Nat :=
  (List.range (s.length + 1)).find? fun i => pat.isPrefixOf (s.drop i)

/-! ## Base64 (`base64.b64decode` / `base64.b64encode`) -/

def b64CharVal (c : Char) : Option Nat :=
  let n := c.toNat
  if 65 ≤ n ∧ n ≤ 90 then some (n - 65)
  else if 97 ≤ n ∧ n ≤ 122 then some (n - 71)
  else if 48 ≤ n ∧ n ≤ 57 then some (n + 4)
  else if c = '+' then some 62
  else if c = '/' then some 63
  else none

/-- Decode four-character base64 groups; `=` padding is accepted only at the
very end.  (CPython additionally discards characters outside the alphabet
before decoding; inputs relying on that leniency are not treated here and
simply fail.) -/
def b64DecodeGroups : List Char → Option (List Nat)
  | [] => some []
  | a :: b :: c :: d :: rest => do
    let va ← b64CharVal a
    let vb ← b64CharVal b
    if c = '=' then
      if d = '=' ∧ rest = [] then some [va * 4 + vb / 16] else none
    else do
      let vc ← b64CharVal c
      if d = '=' then
        if rest = [] then some [va * 4 + vb / 16, (vb % 16) * 16 + vc / 4]
        else none
      else do
        let vd ← b64CharVal d
        let tail ← b64DecodeGroups rest
        some ([va * 4 + vb / 16, (vb % 16) * 16 + vc / 4, (vc % 4) * 64 + vd] ++ tail)
  | _ => none

/-- `base64.b64decode` on a correctly padded input. -/
def b64decode (s : List Char) : Option (List Nat) := b64DecodeGroups s

def b64Char (n : Nat) : Char :=
  if n < 26 then Char.ofNat (65 + n)
  else if n < 52 then Char.ofNat (97 + n - 26)
  else if n < 62 then Char.ofNat (48 + n - 52)
  else if n = 62 then '+' else '/'

/-- `base64.b64encode`. -/
def b64encodeBytes : List Nat → List Char
  | [] => []
  | [a] => [b64Char (a / 4), b64Char ((a % 4) * 16), '=', '=']
  | [a, b] => [b64Char (a / 4), b64Char ((a % 4) * 16 + b / 16), b64Char ((b % 16) * 4), '=']
  | a :: b :: c :: rest =>
    [b64Char (a / 4), b64Char ((a % 4) * 16 + b / 16),
     b64Char ((b % 16) * 4 + c / 64), b64Char (c % 64)] ++ b64encodeBytes rest

/-! ## UTF-8 decoding with `errors="ignore"` -/

/-- Worker for `utf8DecodeIgnore`; the fuel is decremented once per
consumed byte, so fuel equal to the input length is exact. -/
def utf8DecodeGo : Nat → List Nat → List Char
  | 0, _ => []
  | _ + 1, [] => []
  | f + 1, b :: rest =>
    if b < 0x80 then Char.ofNat b :: utf8DecodeGo f rest
    else if 0xc2 ≤ b ∧ b ≤ 0xdf then
      match rest with
      | c :: r2 =>
        if 0x80 ≤ c ∧ c ≤ 0xbf then
          Char.ofNat ((b - 0xc0) * 64 + (c - 0x80)) :: utf8DecodeGo f r2
        else utf8DecodeGo f rest
      | [] => []
    else if 0xe0 ≤ b ∧ b ≤ 0xef then
      match rest with
      | c :: c2 :: r3 =>
        if ((b = 0xe0 ∧ 0xa0 ≤ c ∧ c ≤ 0xbf) ∨
            (b = 0xed ∧ 0x80 ≤ c ∧ c ≤ 0x9f) ∨
            (b ≠ 0xe0 ∧ b ≠ 0xed ∧ 0x80 ≤ c ∧ c ≤ 0xbf)) ∧
           0x80 ≤ c2 ∧ c2 ≤ 0xbf then
          Char.ofNat (((b - 0xe0) * 64 + (c - 0x80)) * 64 + (c2 - 0x80)) ::
            utf8DecodeGo f r3
        else utf8DecodeGo f rest
      | _ => utf8DecodeGo f rest
    else if 0xf0 ≤ b ∧ b ≤ 0xf4 then
      match rest with
      | c :: c2 :: c3 :: r4 =>
        if ((b = 0xf0 ∧ 0x90 ≤ c ∧ c ≤ 0xbf) ∨
            (b = 0xf4 ∧ 0x80 ≤ c ∧ c ≤ 0x8f) ∨
            (b ≠ 0xf0 ∧ b ≠ 0xf4 ∧ 0x80 ≤ c ∧ c ≤ 0xbf)) ∧
           0x80 ≤ c2 ∧ c2 ≤ 0xbf ∧ 0x80 ≤ c3 ∧ c3 ≤ 0xbf then
          Char.ofNat ((((b - 0xf0) * 64 + (c - 0x80)) * 64 + (c2 - 0x80)) * 64 +
            (c3 - 0x80)) :: utf8DecodeGo f r4
        else utf8DecodeGo f rest
      | _ => utf8DecodeGo f rest
    else utf8DecodeGo f rest

/-- `bytes.decode("utf-8", errors="ignore")`: decode well-formed sequences,
skip offending bytes. -/
def utf8DecodeIgnore (bs : List Nat) : List Char := utf8DecodeGo bs.length bs

/-! ## JSON (`json.loads` / `json.dumps`)

The JSON value model used by the vmess branch of the canonicalizer.
Numbers are modelled as integers: a document containing a fraction or an
exponent is outside the model and its parse fails (such vmess payloads then
take the exception branch of `strip_proxy_remark`).  Object entries keep
Python dict insertion order; a duplicate key overwrites its earlier value in
place, as `json.loads` does. -/

inductive PyJson where
  | null
  | bool (b : Bool)
  | num (n : Int)
  | str (s : List Char)
  | arr (xs : List PyJson)
  | obj (kvs : List (List Char × PyJson))

/-- Dict insert: overwrite in place, else append (Python dict semantics). -/
def objInsert (kvs : List (List Char × PyJson)) (k : List Char) (v : PyJson) :
    List (List Char × PyJson) :=
  if kvs.any fun p => p.1 = k then kvs.map fun p => if p.1 = k then (k, v) else p
  else kvs ++ [(k, v)]

/-- `dict.pop(key, None)`: drop the entry for `key` when present. -/
def objErase (kvs : List (List Char × PyJson)) (k : List Char) :
    List (List Char × PyJson) :=
  kvs.filter fun p => ¬ p.1 = k

/-- JSON insignificant whitespace. -/
def jsonSkipWs (s : List Char) : List Char :=
  s.dropWhile fun c => c.toNat ∈ [32, 9, 10, 13]

def hexVal (c : Char) : Option Nat :=
  let n := c.toNat
  if 48 ≤ n ∧ n ≤ 57 then some (n - 48)
  else if 97 ≤ n ∧ n ≤ 102 then some (n - 87)
  else if 65 ≤ n ∧ n ≤ 70 then some (n - 55)
  else none

def parseHex4 : List Char → Option (Nat × List Char)
  | a :: b :: c :: d :: rest => do
    let va ← hexVal a
    let vb ← hexVal b
    let vc ← hexVal c
    let vd ← hexVal d
    some (((va * 16 + vb) * 16 + vc) * 16 + vd, rest)
  | _ => none

/-- Parse the body of a JSON string (after the opening quote).  Escapes are
the standard ones; surrogate escape pairs combine; lone surrogates (which
CPython would keep in the `str`) have no `Char` representation and fail. -/
def parseJStringGo : Nat → List Char → Option (List Char × List Char)
  | 0, _ => none
  | _ + 1, [] => none
  | f + 1, c :: rest =>
    if c = '"' then some ([], rest)
    else if c = '\\' then
      match rest with
      | [] => none
      | e :: rest2 =>
        if e = '"' then (parseJStringGo f rest2).map fun p => ('"' :: p.1, p.2)
        else if e = '\\' then (parseJStringGo f rest2).map fun p => ('\\' :: p.1, p.2)
        else if e = '/' then (parseJStringGo f rest2).map fun p => ('/' :: p.1, p.2)
        else if e = 'b' then (parseJStringGo f rest2).map fun p => (Char.ofNat 8 :: p.1, p.2)
        else if e = 'f' then (parseJStringGo f rest2).map fun p => (Char.ofNat 12 :: p.1, p.2)
        else if e = 'n' then (parseJStringGo f rest2).map fun p => ('\n' :: p.1, p.2)
        else if e = 'r' then (parseJStringGo f rest2).map fun p => ('\r' :: p.1, p.2)
        else if e = 't' then (parseJStringGo f rest2).map fun p => ('\t' :: p.1, p.2)
        else if e = 'u' then
          match parseHex4 rest2 with
          | none => none
          | some (n, rest3) =>
            if 0xd800 ≤ n ∧ n ≤ 0xdbff then
              match rest3 with
              | '\\' :: 'u' :: rest4 =>
                match parseHex4 rest4 with
                | some (m, rest5) =>
                  if 0xdc00 ≤ m ∧ m ≤ 0xdfff then
                    (parseJStringGo f rest5).map fun p =>
                      (Char.ofNat (0x10000 + (n - 0xd800) * 1024 + (m - 0xdc00)) :: p.1, p.2)
                  else none
                | none => none
              | _ => none
            else if 0xdc00 ≤ n ∧ n ≤ 0xdfff then none
            else (parseJStringGo f rest3).map fun p => (Char.ofNat n :: p.1, p.2)
        else none
    else if c.toNat < 0x20 then none
    else (parseJStringGo f rest).map fun p => (c :: p.1, p.2)

def isDigitChar (c : Char) : Bool := 48 ≤ c.toNat ∧ c.toNat ≤ 57

def digitsToNat (ds : List Char) : Nat :=
  ds.foldl (fun acc c => acc * 10 + (c.toNat - 48)) 0

/-- Parse a JSON number; fractions and exponents are outside the integer
model and fail. -/
def parseJNumber (s : List Char) : Option (Int × List Char) :=
  let (neg, s1) := match s with
    | '-' :: r => (true, r)
    | _ => (false, s)
  let ds := s1.takeWhile isDigitChar
  let rest := s1.dropWhile isDigitChar
  if ds = [] then none
  else if 1 < ds.length ∧ ds.headD ' ' = '0' then none
  else
    match rest with
    | '.' :: _ => none
    | 'e' :: _ => none
    | 'E' :: _ => none
    | _ =>
      let v : Int := Int.ofNat (digitsToNat ds)
      some (if neg then -v else v, rest)

mutual

/-- Parse one JSON value (leading whitespace tolerated). -/
def parseJValue : Nat → List Char → Option (PyJson × List Char)
  | 0, _ => none
  | f + 1, s =>
    match jsonSkipWs s with
    | [] => none
    | c :: rest =>
      if c = '"' then
        (parseJStringGo (f + 1) rest).map fun p => (PyJson.str p.1, p.2)
      else if c = Char.ofNat 123 then
        parseJMembers f (jsonSkipWs rest) []
      else if c = '[' then
        parseJItems f (jsonSkipWs rest) []
      else if c = 't' then
        if ['r', 'u', 'e'].isPrefixOf rest then some (PyJson.bool true, rest.drop 3)
        else none
      else if c = 'f' then
        if ['a', 'l', 's', 'e'].isPrefixOf rest then some (PyJson.bool false, rest.drop 4)
        else none
      else if c = 'n' then
        if ['u', 'l', 'l'].isPrefixOf rest then some (PyJson.null, rest.drop 3)
        else none
      else if c = '-' ∨ isDigitChar c then
        (parseJNumber (c :: rest)).map fun p => (PyJson.num p.1, p.2)
      else none

/-- Parse object members after the opening brace (whitespace skipped); a
closing brace is accepted only before the first member. -/
def parseJMembers : Nat → List Char → List (List Char × PyJson) →
    Option (PyJson × List Char)
  | 0, _, _ => none
  | f + 1, s, acc =>
    match s with
    | [] => none
    | c :: rest =>
      if c = Char.ofNat 125 then
        if acc.isEmpty then some (PyJson.obj [], rest) else none
      else if c = '"' then
        match parseJStringGo (f + 1) rest with
        | none => none
        | some (k, rest1) =>
          match jsonSkipWs rest1 with
          | ':' :: rest3 =>
            match parseJValue f rest3 with
            | none => none
            | some (v, rest4) =>
              match jsonSkipWs rest4 with
              | ',' :: rest6 => parseJMembers f (jsonSkipWs rest6) (objInsert acc k v)
              | d :: rest6 =>
                if d = Char.ofNat 125 then some (PyJson.obj (objInsert acc k v), rest6)
                else none
              | [] => none
          | _ => none
      else none

/-- Parse array items after the opening bracket (whitespace skipped); a
closing bracket is accepted only before the first item. -/
def parseJItems : Nat → List Char → List PyJson → Option (PyJson × List Char)
  | 0, _, _ => none
  | f + 1, s, acc =>
    match s with
    | ']' :: rest =>
      if acc.isEmpty then some (PyJson.arr [], rest) else none
    | s1 =>
      match parseJValue f s1 with
      | none => none
      | some (v, rest4) =>
        match jsonSkipWs rest4 with
        | ',' :: rest6 => parseJItems f (jsonSkipWs rest6) (acc ++ [v])
        | ']' :: rest6 => some (PyJson.arr (acc ++ [v]), rest6)
        | _ => none

end

/-- `json.loads`: parse one document and require only whitespace after
it. -/
def jsonLoads (s : List Char) : Option PyJson :=
  match parseJValue (2 * s.length + 2) s with
  | some (v, rest) => if jsonSkipWs rest = [] then some v else none
  | none => none

/-! ## JSON serialization (`json.dumps(..., separators=(",", ":"))`) -/

/-- Generic stable insertion relative to a boolean `le`. -/
def insertSortedBy (le : α → α → Bool) (x : α) : List α → List α
  | [] => [x]
  | y :: ys => if le x y then x :: y :: ys else y :: insertSortedBy le x ys

def sortByLe (le : α → α → Bool) : List α → List α
  | [] => []
  | x :: xs => insertSortedBy le x (sortByLe le xs)

/-- Code-point lexicographic order on strings (Python `str` comparison, as
used by `sort_keys=True`; dict keys are distinct so ties do not arise). -/
def charListLe : List Char → List Char → Bool
  | [], _ => true
  | _ :: _, [] => false
  | a :: as, b :: bs =>
    if a.toNat < b.toNat then true
    else if b.toNat < a.toNat then false
    else charListLe as bs

def hex4 (n : Nat) : List Char :=
  [hexDigitChar ((n >>> 12) % 16), hexDigitChar ((n >>> 8) % 16),
   hexDigitChar ((n >>> 4) % 16), hexDigitChar (n % 16)]

/-- Escaping of one character under `ensure_ascii=True` (the
`json.dumps` default). -/
def jsonEscapeChar (c : Char) : List Char :=
  if c = '"' then ['\\', '"']
  else if c = '\\' then ['\\', '\\']
  else if c = '\n' then ['\\', 'n']
  else if c = '\r' then ['\\', 'r']
  else if c = '\t' then ['\\', 't']
  else if c.toNat = 8 then ['\\', 'b']
  else if c.toNat = 12 then ['\\', 'f']
  else if c.toNat < 0x20 then '\\' :: 'u' :: hex4 c.toNat
  else if c.toNat < 0x7f then [c]
  else if c.toNat < 0x10000 then '\\' :: 'u' :: hex4 c.toNat
  else
    '\\' :: 'u' :: hex4 (0xd800 + (c.toNat - 0x10000) / 1024) ++
      '\\' :: 'u' :: hex4 (0xdc00 + (c.toNat - 0x10000) % 1024)

def jsonEscapeString (s : List Char) : List Char :=
  '"' :: s.flatMap jsonEscapeChar ++ ['"']

/-- Decimal rendering of an integer. -/
def intToChars (n : Int) : List Char :=
  if n < 0 then '-' :: Nat.toDigits 10 n.natAbs else Nat.toDigits 10 n.natAbs

mutual

/-- Nesting depth of a JSON value (fuel bound for the serializer). -/
def jsonDepth : PyJson → Nat
  | .arr xs => jsonDepthList xs + 1
  | .obj kvs => jsonDepthKvs kvs + 1
  | _ => 1

def jsonDepthList : List PyJson → Nat
  | [] => 0
  | x :: xs => max (jsonDepth x) (jsonDepthList xs)

def jsonDepthKvs : List (List Char × PyJson) → Nat
  | [] => 0
  | (_, v) :: kvs => max (jsonDepth v) (jsonDepthKvs kvs)

end

/-- Worker for `jsonDumps`; the fuel bounds nesting depth and
`jsonDepth` always suffices. -/
def jsonDumpGo : Nat → Bool → PyJson → List Char
  | 0, _, _ => []
  | f + 1, sortKeys, v =>
    match v with
    | .null => 'n' :: 'u' :: 'l' :: 'l' :: []
    | .bool true => 't' :: 'r' :: 'u' :: 'e' :: []
    | .bool false => 'f' :: 'a' :: 'l' :: 's' :: 'e' :: []
    | .num n => intToChars n
    | .str s => jsonEscapeString s
    | .arr xs =>
      '[' :: List.intercalate [','] (xs.map fun x => jsonDumpGo f sortKeys x) ++ [']']
    | .obj kvs =>
      let entries :=
        if sortKeys then sortByLe (fun a b => charListLe a.1 b.1) kvs else kvs
      Char.ofNat 123 ::
        List.intercalate [','] (entries.map fun p =>
          jsonEscapeString p.1 ++ ':' :: jsonDumpGo f sortKeys p.2) ++
        [Char.ofNat 125]

/-- `json.dumps(v, sort_keys?, separators=(",", ":"))`. -/
def jsonDumps (sortKeys : Bool) (v : PyJson) : List Char :=
  jsonDumpGo (jsonDepth v) sortKeys v

/-! ## Proxy-URI canonicalizer (`src/huntx/formats/npvt.py`) -/

/-- `_PROXY_SCHEMES`, in source order. -/
def proxySchemes : List (List Char) :=
  ["vmess://".toList, "vless://".toList, "trojan://".toList,
   "ss://".toList, "ssr://".toList,
   "hysteria2://".toList, "hy2://".toList, "hysteria://".toList,
   "tuic://".toList,
   "wireguard://".toList, "wg://".toList,
   "socks://".toList, "socks5://".toList, "socks4://".toList,
   "anytls://".toList,
   "juicity://".toList,
   "warp://".toList,
   "dns://".toList, "dnstt://".toList]

/-- The `vmess://` scheme header. -/
def vmessHeader : List Char := "vmess://".toList

/-- `_is_proxy_line`: the line starts with a known scheme (case
sensitive, as in the source). -/
def isProxyLine (line : List Char) : Bool :=
  proxySchemes.any fun s => s.isPrefixOf line

/-- `_b64_decode_safe`: URL-safe chars swapped in, auto-padding, base64
decode, then UTF-8 decode ignoring errors; `none` models the raised
exception. -/
def b64DecodeSafe (data : List Char) : Option (List Char) :=
  let d1 := data.map fun c => if c = '-' then '+' else if c = '_' then '/' else c
  let padding := 4 - d1.length % 4
  let d2 := if padding ≠ 4 then d1 ++ List.replicate padding '=' else d1
  (b64decode d2).map utf8DecodeIgnore

/-- The key `"ps"`. -/
def psKey : List Char := ['p', 's']

/-- The vmess branch of `strip_proxy_remark` up to `obj.pop("ps", None)`:
decode the base64 payload, parse it as JSON, and require a JSON object
(`pop` on any other value raises, taking the `except` branch). -/
def vmessDecodeObj (uri : List Char) : Option (List (List Char × PyJson)) :=
  match b64DecodeSafe (uri.drop 8) with
  | none => none
  | some raw =>
    match jsonLoads raw with
    | some (PyJson.obj kvs) => some kvs
    | _ => none

/-- The fragment-stripping tail of `strip_proxy_remark`:
`idx = uri.rfind("#"); return uri[:idx] if idx > 0 else uri`. -/
def stripFragmentTail (uri : List Char) : List Char :=
  match lastIdxOf '#' uri with
  | some idx => if 0 < idx then uri.take idx else uri
  | none => uri

/-- `strip_proxy_remark`: for `vmess://` decode, drop `ps`, re-encode the
canonical sorted JSON; on any decoding failure, and for every other scheme,
strip the text from the last `#` on (when that `#` is not the first
character). -/
def stripProxyRemark (uri : List Char) : List Char :=
  if vmessHeader.isPrefixOf uri then
    match vmessDecodeObj uri with
    | some kvs =>
      vmessHeader ++ b64encodeBytes (utf8Encode (jsonDumps true (PyJson.obj (objErase kvs psKey))))
    | none => stripFragmentTail uri
  else stripFragmentTail uri

/-- `uri.split("://")[0].lower() if "://" in uri else "proxy"`. -/
def schemeOf (uri : List Char) : List Char :=
  match firstIdxOfSeq "://".toList uri with
  | some i => lowerAscii (uri.take i)
  | none => "proxy".toList

/-- Counter lookup in the protocol counter dict. -/
def counterGet (ctr : List (List Char × Nat)) (k : List Char) : Nat :=
  (((ctr.find? fun p => p.1 = k)).map fun p => p.2).getD 0

/-- Counter update (dict assignment). -/
def counterSet (ctr : List (List Char × Nat)) (k : List Char) (n : Nat) :
    List (List Char × Nat) :=
  if ctr.any fun p => p.1 = k then ctr.map fun p => if p.1 = k then (k, n) else p
  else ctr ++ [(k, n)]

/-- `obj["ps"] = tag`: dict assignment, in place when present, appended
otherwise. -/
def objSetPs (kvs : List (List Char × PyJson)) (tag : List Char) :
    List (List Char × PyJson) :=
  objInsert kvs psKey (PyJson.str tag)

/-- `add_clean_remark`: bump the per-scheme counter, build the
`scheme-N` tag, then set the vmess `ps` field (original URI returned when
decoding fails, the counter already bumped) or replace the fragment. -/
def addCleanRemark (uri : List Char) (ctr : List (List Char × Nat)) :
    List Char × List (List Char × Nat) :=
  let scheme := schemeOf uri
  let n := counterGet ctr scheme + 1
  let ctr1 := counterSet ctr scheme n
  let tag := scheme ++ '-' :: Nat.toDigits 10 n
  if vmessHeader.isPrefixOf uri then
    match vmessDecodeObj uri with
    | some kvs =>
      (vmessHeader ++ b64encodeBytes (utf8Encode (jsonDumps false (PyJson.obj (objSetPs kvs tag)))),
       ctr1)
    | none => (uri, ctr1)
  else
    let base :=
      match lastIdxOf '#' uri with
      | some idx => if 0 < idx then uri.take idx else uri
      | none => uri
    (base ++ '#' :: tag, ctr1)

/-! ## NpvtHandler.parse -/

/-- `normalize_text`: NFKC normalization followed by `strip()`.  NFKC is
modelled as the identity; it is the identity on ASCII code points, and the
parse-level theorem below carries explicit ASCII hypotheses. -/
def nfkcNormalize (s : List Char) : List Char := s

def normalizeText (s : List Char) : List Char := pyStrip (nfkcNormalize s)

/-- Characters a matched URI may continue with in `_PROXY_URI_RE`
(anything except whitespace and angled or quote characters). -/
def uriBodyChar (c : Char) : Bool :=
  !(isPySpace c || c = '<' || c = '>' || c = '"' || c = '\'')

/-- Case-insensitive scheme match at the current position (the regex is
compiled with `IGNORECASE`); at most one scheme can match at a position, so
the alternation order is immaterial. -/
def schemeMatchAt (s : List Char) : Option Nat :=
  (proxySchemes.find? fun sch => sch.isPrefixOf (lowerAscii (s.take sch.length))).map
    fun sch => sch.length

/-- Scanner for `_PROXY_URI_RE.findall`: at each position try to match a
scheme followed by at least one body character; matches do not overlap. -/
def extractScanGo : Nat → List Char → List (List Char)
  | 0, _ => []
  | _ + 1, [] => []
  | f + 1, s =>
    match schemeMatchAt s with
    | some schemeLen =>
      let body := (s.drop schemeLen).takeWhile uriBodyChar
      if body.isEmpty then extractScanGo f (s.drop 1)
      else (s.take schemeLen ++ body) :: extractScanGo f (s.drop (schemeLen + body.length))
    | none => extractScanGo f (s.drop 1)

/-- `_extract_proxy_uris`. -/
def extractProxyUris (text : List Char) : List (List Char) :=
  extractScanGo text.length text

/-- The whole-input base64 attempt at the top of `NpvtHandler.parse`:
auto-pad, standard-alphabet decode, UTF-8 decode ignoring errors. -/
def parseWholeB64 (cleanText : List Char) : Option (List Char) :=
  let padding := 4 - cleanText.length % 4
  let padded := if padding ≠ 4 then cleanText ++ List.replicate padding '=' else cleanText
  (b64decode padded).map utf8DecodeIgnore

/-- A parsed record: `{"unique_hash": h, "data": {"line": l}}`. -/
structure ParsedRecord where
  uniqueHash : List Char
  line : List Char
deriving DecidableEq

/-- Fold step shared by both paths of the parse loop: hash the canonical
URI and keep it unless the hash was already seen. -/
def parseEmit (acc : List ParsedRecord × List (List Char)) (stripped : List Char) :
    List ParsedRecord × List (List Char) :=
  let h := hashString stripped
  if h ∈ acc.2 then acc
  else (acc.1 ++ [{ uniqueHash := h, line := stripped }], acc.2 ++ [h])

/-- The per-line step of `NpvtHandler.parse`. -/
def parseLineStep (acc : List ParsedRecord × List (List Char)) (line : List Char) :
    List ParsedRecord × List (List Char) :=
  let clean := normalizeText line
  if clean.isEmpty then acc
  else if isProxyLine clean then parseEmit acc (stripProxyRemark clean)
  else
    (extractProxyUris clean).foldl
      (fun acc2 uri => parseEmit acc2 (stripProxyRemark (pyStrip uri))) acc

/-- `NpvtHandler.parse` on the decoded text: optional whole-input base64
decode, then the line loop with in-call deduplication by hash. -/
def npvtParseText (text : List Char) : List ParsedRecord :=
  let cleanText := pyStrip text
  let text1 :=
    if !containsSeq "://".toList cleanText && !(' ' ∈ cleanText) &&
        decide (10 < cleanText.length) then
      match parseWholeB64 cleanText with
      | some decoded =>
        if proxySchemes.any fun sch => containsSeq sch decoded then decoded else text
      | none => text
    else text
  ((pySplitlines text1).foldl parseLineStep ([], [])).1

/-- `NpvtHandler.parse` on raw bytes (`raw_data.decode("utf-8",
errors="ignore")` first). -/
def npvtParse (rawData : List Nat) : List ParsedRecord :=
  npvtParseText (utf8DecodeIgnore rawData)

/-! ## NpvtHandler.build -/

/-- The record dict shapes `build` accepts. -/
inductive BuildRecIn where
  | dataLine (line : List Char)
  | topLine (line : List Char)
  | noLine
deriving DecidableEq

/-- The line extraction at the top of the build loop
(`r["data"]["line"]`, else `r["line"]`, else skip); an extracted empty
string is falsy and also skipped. -/
def extractLine : BuildRecIn → Option (List Char)
  | .dataLine l => if l.isEmpty then none else some l
  | .topLine l => if l.isEmpty then none else some l
  | .noLine => none

/-- The loop body of `NpvtHandler.build`: canonicalize, dedupe by canonical
form, re-tag survivors. -/
def buildStep (acc : List (List Char) × List (List Char) × List (List Char × Nat))
    (r : BuildRecIn) : List (List Char) × List (List Char) × List (List Char × Nat) :=
  let (lines, seen, ctr) := acc
  match extractLine r with
  | none => acc
  | some line =>
    let stripped := stripProxyRemark line
    if stripped ∈ seen then acc
    else
      let (tagged, ctr1) := addCleanRemark stripped ctr
      (lines ++ [tagged], seen ++ [stripped], ctr1)

/-- The lines emitted by `NpvtHandler.build`, in order. -/
def npvtBuildLines (records : List BuildRecIn) : List (List Char) :=
  (records.foldl buildStep ([], [], [])).1

/-- `NpvtHandler.build`: the joined lines, UTF-8 encoded. -/
def npvtBuild (records : List BuildRecIn) : List Nat :=
  utf8Encode (List.intercalate ['\n'] (npvtBuildLines records))

/-! ## Spec-side reformulation of the build output (claim C8)

Declarative counterparts of the imperative `build` loop, written from the
specification: the canonical URIs of the records, first-occurrence
deduplication, and per-protocol 1-based sequential tags. -/

/-- The canonical URI (the `strip_proxy_remark` image) of each record that
carries a line. -/
def canonsOf (records : List BuildRecIn) : List (List Char) :=
  records.filterMap fun r => (extractLine r).map stripProxyRemark

/-- First-occurrence deduplication relative to an already-seen prefix. -/
def firstDedupAux (seen : List (List Char)) : List (List Char) → List (List Char)
  | [] => []
  | x :: xs =>
    if x ∈ seen then firstDedupAux seen xs
    else x :: firstDedupAux (seen ++ [x]) xs

/-- Keep the first occurrence of every canonical URI, in order. -/
def firstDedup (cs : List (List Char)) : List (List Char) := firstDedupAux [] cs

/-- The re-tagged output line the spec describes for a canonical URI `c` and
tag `t`: vmess sets the `ps` field (unchanged when undecodable), every other
scheme replaces the fragment. -/
def taggedLineSpec (c : List Char) (tag : List Char) : List Char :=
  if vmessHeader.isPrefixOf c then
    match vmessDecodeObj c with
    | some kvs =>
      vmessHeader ++ b64encodeBytes (utf8Encode (jsonDumps false (PyJson.obj (objSetPs kvs tag))))
    | none => c
  else stripFragmentTail c ++ '#' :: tag

/-- Tag the deduplicated canonicals: the `N` of `scheme-N` is one more than
the number of earlier canonicals of the same scheme (`prev` carries them). -/
def tagSpecGo (prev : List (List Char)) : List (List Char) → List (List Char)
  | [] => []
  | c :: cs =>
    taggedLineSpec c
        (schemeOf c ++ '-' ::
          Nat.toDigits 10 ((prev.filter fun x => schemeOf x = schemeOf c).length + 1))
      :: tagSpecGo (prev ++ [c]) cs

/-- The spec-side build output: deduplicated canonicals with per-protocol
sequential tags. -/
def tagSpec (cs : List (List Char)) : List (List Char) := tagSpecGo [] cs

/-! ## Concrete example data shared by the evaluation theorems -/

/-- A `seen_files` row with the fields the examples vary. -/
def mkSeen (i : Nat) (src ext rh st : String) : SeenRow :=
  { id := i, sourceId := src, externalId := ext, rawHash := rh, fileSize := 0,
    filename := "f", status := st, errorMsg := none, metadataJson := "" }

/-- A `records` row with the fields the examples vary. -/
def mkRec (i : Nat) (rh rt uh dj : String) : RecordRow :=
  { id := i, sourceFileHash := rh, recordType := rt, uniqueHash := uh,
    dataJson := dj, isActive := true }

/-- One record joined to the single seen row: the cutoff captured before a
run with no new files excludes it. -/
def cutoffExampleDb : DBState :=
  { seenFiles := [mkSeen 1 "s" "a" "h" "processed"],
    records := [mkRec 1 "h" "t" "u" "d"],
    published := [] }

/-- One active record whose raw hash was ingested twice (two seen rows with
the same `raw_hash` under distinct external ids). -/
def dupHashExampleDb : DBState :=
  { seenFiles := [mkSeen 1 "s" "a" "h" "processed", mkSeen 2 "s" "b" "h" "processed"],
    records := [mkRec 1 "h" "t" "u" "d"],
    published := [] }

/-! # Theorems -/

/-! ## C1: the cutoff never reaches the record fetch -/

/-- C1: the claim states that every build fetches its records with
`min_seen_file_id` equal to the pre-run cutoff.  The orchestrator does put
the cutoff into the route dict, but `BuildPipeline.run` never reads it and
calls `get_records_for_build` without it: on a database whose single record
is joined to the only seen row (`id = 1 = cutoff`), the pipeline's fetch
returns that record although the fetch the claim describes returns
nothing. -/
theorem buildFetchIgnoresCutoff :
    buildPipelineFetch
        (orchestratorRouteDict "r" ["t"] ["s"] (getSeenFileMaxId cutoffExampleDb))
        cutoffExampleDb = [{ recordType := "t", dataJson := "d" }] ∧
    getRecordsForBuild cutoffExampleDb ["t"] ["s"]
        (orchestratorRouteDict "r" ["t"] ["s"]
          (getSeenFileMaxId cutoffExampleDb)).minSeenFileId = [] := by
  constructor <;> rfl

/-! ## C2: duplicate output rows for one `(record_type, unique_hash)` -/

/-- C2 counterexample: when one active record's `raw_hash` matches two
allowed seen rows, the final join emits the kept record once per matching
seen row, so `get_records_for_build` returns two rows for the single
`(record_type, unique_hash)` pair — refuting "at most one row per
pair". -/
theorem getRecordsForBuildDuplicate :
    getRecordsForBuild dupHashExampleDb ["t"] ["s"] none =
      [{ recordType := "t", dataJson := "d" }, { recordType := "t", dataJson := "d" }] ∧
    (keptRowsSorted dupHashExampleDb ["t"] ["s"] none).countP
      (fun p => decide (p.1.recordType = "t" ∧ p.1.uniqueHash = "u")) = 2 := by
  constructor <;> rfl

/-! ## C5: the 22-byte threshold applies to every format -/

/-- C5 counterexample: a ten-byte artifact of the text format `npvt` is
dropped by `BuildPipeline.run` although the claimed criterion (empty, or
bundle format of at most 22 bytes) does not hold for it. -/
theorem buildDropTextCounterexample :
    buildFormatStep (List.replicate 10 65) = .dropped ∧
    ¬ claimedDropCriterion "npvt" (List.replicate 10 65) := by
  constructor
  · rfl
  · decide

/-- C5 amended: `BuildPipeline.run` drops a built artifact exactly when its
length is at most 22 bytes (the empty check is subsumed), for every format
alike; larger artifacts are persisted through `save_artifact` and
`save_output` and emitted as build results. -/
theorem buildDropThreshold (artifactBytes : List Nat) :
    buildFormatStep artifactBytes =
      (if artifactBytes.length ≤ emptyZipThreshold then .dropped
       else .persisted true true true) := by
  unfold buildFormatStep
  rcases artifactBytes with _ | ⟨b, bs⟩
  · simp [emptyZipThreshold]
  · simp

/-! ## C6: strip_proxy_remark is not idempotent on multi-fragment URIs -/

/-- C6 counterexample: `rfind("#")` strips only the last fragment, so a
URI containing two `#` characters is not a fixed point of one application:
`strip("ss://a#b#c") = "ss://a#b"` but a second application gives
`"ss://a"`. -/
theorem stripRemarkNotIdempotent :
    stripProxyRemark (stripProxyRemark "ss://a#b#c".toList) ≠
      stripProxyRemark "ss://a#b#c".toList := by
  decide

/-! ## C3 / C4: publish change detection and conditional state update -/

/-- After `mark_published`, the most recent row for that `unique_id` is the
appended one. -/
theorem getLastPublishedHash_markPublished (log : List PubRow) (uid h m : String) :
    getLastPublishedHash (markPublished log uid h m) uid = some h := by
  unfold getLastPublishedHash markPublished
  rw [List.filter_append]
  simp

/-- C3: a build result whose artifact hash equals the last published hash of
its `unique_id` is never republished — `PublishPipeline.run` attempts no
upload to any destination, marks nothing published, and leaves the
published-artifact log unchanged. -/
theorem publishSkipsUnchangedArtifact (log : List PubRow) (br : BuildResultIn)
    (dests : List Dest) (defaultToken : Option String) (uploadOk : Nat → Bool)
    (hlast : getLastPublishedHash log br.uniqueId = some br.artifactHash) :
    publishRun log br dests defaultToken uploadOk =
      { attempts := [], successes := [], marked := false, log := log } := by
  by_cases hz : br.format ∈ zipFormats ∧ br.data.length ≤ emptyZipThreshold
  · unfold publishRun
    rw [if_pos hz]
  · unfold publishRun
    rw [if_neg hz, if_pos hlast]

/-- C3 witness. -/
theorem publishSkipsUnchangedArtifact_witness :
    publishRun [{ routeName := "r:npvt", artifactHash := "h1", metadataJson := "" }]
        { routeName := "r", format := "npvt", uniqueId := "r:npvt",
          artifactHash := "h1", data := [65, 66], count := 1 }
        [{ chatId := "c", captionTemplate := "t", token := some (some "tok") }]
        none (fun _ => true) =
      { attempts := [], successes := [], marked := false,
        log := [{ routeName := "r:npvt", artifactHash := "h1", metadataJson := "" }] } :=
  publishSkipsUnchangedArtifact _ _ _ _ _ (by rfl)

/-- C4: `mark_published` runs exactly when the upload succeeded to at least
one destination; then the last published hash of the `unique_id` is the new
artifact hash, and otherwise (every destination failed or was skipped) the
published-artifact log is unchanged, keeping the artifact eligible for
retry. -/
theorem publishMarkIffSuccess (log : List PubRow) (br : BuildResultIn)
    (dests : List Dest) (defaultToken : Option String) (uploadOk : Nat → Bool) :
    ((publishRun log br dests defaultToken uploadOk).marked = true ↔
      (publishRun log br dests defaultToken uploadOk).successes ≠ []) ∧
    ((publishRun log br dests defaultToken uploadOk).marked = true →
      (publishRun log br dests defaultToken uploadOk).log =
        markPublished log br.uniqueId br.artifactHash "\x7b\x7d" ∧
      getLastPublishedHash (publishRun log br dests defaultToken uploadOk).log
        br.uniqueId = some br.artifactHash) ∧
    ((publishRun log br dests defaultToken uploadOk).marked = false →
      (publishRun log br dests defaultToken uploadOk).log = log) := by
  unfold publishRun
  split
  · exact ⟨by simp, by simp, by simp⟩
  · split
    · exact ⟨by simp, by simp, by simp⟩
    · rcases hP : publishDestLoop dests defaultToken uploadOk with ⟨att, succ⟩
      simp only [hP]
      by_cases hs : succ = []
      · subst hs
        simp
      · simp [hs, getLastPublishedHash_markPublished]

/-! ## C9: connector exceptions do not flush the buffer -/

/-- C9 counterexample: one item is buffered, then the connector raises.
The claim states the buffered item is flushed (blob and seen-file row
persisted) before the exception propagates; instead `run` re-raises from its
`except` handler without flushing, and the surrounding one-transaction
context manager rolls the database back — the error carries the untouched
database, source table and raw store. -/
theorem ingestErrorDropsBuffer :
    ingestRun ⟨[], [], []⟩ ⟨[]⟩ ⟨[]⟩ "s"
        [.item ⟨"e1", [65], some "a.txt", true, "m"⟩, .err "boom"]
        (fun _ => false) "cs" "telegram" =
      .error ("boom", ⟨[], [], []⟩, ⟨[]⟩, ⟨[]⟩) := by
  rfl

/-- C9 amended: when the connector raises, the ingestion pipeline propagates
the exception without flushing the still-buffered items, and the enclosing
per-run transaction rolls back, so the database (seen files and source
state) is exactly as before the run; only raw blobs written by batch flushes
that completed before the exception persist. -/
theorem ingestErrorRollsBack (db0 : DBState) (tbl0 : SourceTable)
    (store0 : RawStoreState) (sourceId : String) (events : List ConnEvent)
    (deadlineHit : Nat → Bool) (connStateAfter sourceType : String)
    (e : String) (db1 : DBState) (tbl1 : SourceTable) (store1 : RawStoreState)
    (h : ingestRun db0 tbl0 store0 sourceId events deadlineHit connStateAfter
          sourceType = .error (e, db1, tbl1, store1)) :
    db1 = db0 ∧ tbl1 = tbl0 := by
  unfold ingestRun at h
  split at h
  · injection h with h1
    cases h1
    exact ⟨rfl, rfl⟩
  · exact absurd h (by simp)

/-- C9 witness: a run that buffers two items and then hits the connector
exception ends with the original (empty) database and source table. -/
theorem ingestErrorRollsBack_witness :
    (⟨[], [], []⟩ : DBState) = ⟨[], [], []⟩ ∧ (⟨[]⟩ : SourceTable) = ⟨[]⟩ :=
  ingestErrorRollsBack ⟨[], [], []⟩ ⟨[]⟩ ⟨[]⟩ "s"
    [.item ⟨"e1", [65], some "a.txt", true, "m"⟩,
     .item ⟨"e2", [66], some "b.txt", false, "m"⟩, .err "down"]
    (fun _ => false) "cs" "telegram" "down" ⟨[], [], []⟩ ⟨[]⟩ ⟨[]⟩ (by rfl)

/-! ## C10: status updates are keyed by raw hash and touch nothing else -/

/-- C10: `update_file_status` sets `status` and `error_msg` on every
`seen_files` row whose `raw_hash` matches — all of them at once when the
same bytes were ingested under several `(source_id, external_id)` pairs —
leaves non-matching rows and all other columns untouched, leaves the other
tables untouched, and `update_file_status_batch` is the same update executed
once per tuple in order. -/
theorem updateFileStatusByRawHash (db : DBState) (rawHash status : String)
    (errorMsg : Option String) :
    (updateFileStatus db rawHash status errorMsg).records = db.records ∧
    (updateFileStatus db rawHash status errorMsg).published = db.published ∧
    (updateFileStatus db rawHash status errorMsg).seenFiles.length =
      db.seenFiles.length ∧
    (∀ (i : Nat) (s : SeenRow), db.seenFiles[i]? = some s →
      (updateFileStatus db rawHash status errorMsg).seenFiles[i]? =
        some (if s.rawHash = rawHash then
                { s with status := status, errorMsg := errorMsg }
              else s)) ∧
    (∀ us, updateFileStatusBatch db us =
      us.foldl (fun d u => updateFileStatus d u.2.2 u.1 u.2.1) db) := by
  refine ⟨rfl, rfl, by simp [updateFileStatus], ?_, fun us => rfl⟩
  intro i s hs
  unfold updateFileStatus
  rw [List.getElem?_map, hs, Option.map_some']

/-- C10 witness: a database holding the same raw hash under two sources and
one unrelated row; the indexed characterization applied at index 0. -/
theorem updateFileStatusByRawHash_witness :
    (updateFileStatus
        ⟨[mkSeen 1 "s1" "a" "h" "pending", mkSeen 2 "s2" "b" "h" "pending",
          mkSeen 3 "s1" "c" "h2" "pending"], [], []⟩
        "h" "processed" none).seenFiles[0]? =
      some (if (mkSeen 1 "s1" "a" "h" "pending").rawHash = "h" then
              { mkSeen 1 "s1" "a" "h" "pending" with
                  status := "processed", errorMsg := none }
            else mkSeen 1 "s1" "a" "h" "pending") :=
  (updateFileStatusByRawHash
      ⟨[mkSeen 1 "s1" "a" "h" "pending", mkSeen 2 "s2" "b" "h" "pending",
        mkSeen 3 "s1" "c" "h2" "pending"], [], []⟩
      "h" "processed" none).2.2.2.1 0 (mkSeen 1 "s1" "a" "h" "pending") (by rfl)

/-- C4 witness: one destination with a token and a successful upload — the
log gains the row and the last published hash becomes the new artifact
hash. -/
theorem publishMarkIffSuccess_witness :
    (publishRun []
        { routeName := "r", format := "npvt", uniqueId := "r:npvt",
          artifactHash := "h2", data := [65], count := 1 }
        [{ chatId := "c", captionTemplate := "t", token := some (some "tok") }]
        none (fun _ => true)).log =
      markPublished [] "r:npvt" "h2" "\x7b\x7d" ∧
    getLastPublishedHash
      (publishRun []
        { routeName := "r", format := "npvt", uniqueId := "r:npvt",
          artifactHash := "h2", data := [65], count := 1 }
        [{ chatId := "c", captionTemplate := "t", token := some (some "tok") }]
        none (fun _ => true)).log "r:npvt" = some "h2" :=
  (publishMarkIffSuccess []
      { routeName := "r", format := "npvt", uniqueId := "r:npvt",
        artifactHash := "h2", data := [65], count := 1 }
      [{ chatId := "c", captionTemplate := "t", token := some (some "tok") }]
      none (fun _ => true)).2.1 (by rfl)

/-! ## Ordering and grouping lemmas for the build query (claim C2) -/

theorem mem_insertSorted {key : α → Nat} {x y : α} {l : List α} :
    y ∈ insertSorted key x l ↔ y = x ∨ y ∈ l := by
  induction l with
  | nil => simp [insertSorted]
  | cons a as ih =>
    simp only [insertSorted]
    split
    · simp [List.mem_cons]
    · simp only [List.mem_cons, ih]
      tauto

theorem countP_insertSorted (key : α → Nat) (p : α → Bool) (x : α) (l : List α) :
    (insertSorted key x l).countP p = l.countP p + (if p x then 1 else 0) := by
  induction l with
  | nil => simp [insertSorted, List.countP_cons]
  | cons a as ih =>
    simp only [insertSorted]
    split <;> simp only [List.countP_cons, ih] <;> omega

theorem pairwise_insertSorted (key : α → Nat) (x : α) (l : List α)
    (h : l.Pairwise fun a b => key a ≤ key b) :
    (insertSorted key x l).Pairwise fun a b => key a ≤ key b := by
  induction l with
  | nil => simp [insertSorted]
  | cons a as ih =>
    obtain ⟨ha, has⟩ := List.pairwise_cons.mp h
    simp only [insertSorted]
    split
    · rename_i hle
      exact List.pairwise_cons.mpr ⟨fun b hb => by
        rcases List.mem_cons.mp hb with rfl | hbas
        · exact hle
        · exact le_trans hle (ha b hbas), h⟩
    · rename_i hgt
      exact List.pairwise_cons.mpr ⟨fun b hb => by
        rcases mem_insertSorted.mp hb with rfl | hbas
        · exact le_of_not_le hgt
        · exact ha b hbas, ih has⟩

theorem mem_sortByKey {key : α → Nat} {y : α} {l : List α} :
    y ∈ sortByKey key l ↔ y ∈ l := by
  induction l with
  | nil => simp [sortByKey]
  | cons a as ih =>
    simp only [sortByKey, mem_insertSorted, List.mem_cons, ih]

theorem countP_sortByKey (key : α → Nat) (p : α → Bool) (l : List α) :
    (sortByKey key l).countP p = l.countP p := by
  induction l with
  | nil => rfl
  | cons a as ih =>
    simp only [sortByKey, countP_insertSorted, ih, List.countP_cons]

theorem pairwise_sortByKey (key : α → Nat) (l : List α) :
    (sortByKey key l).Pairwise fun a b => key a ≤ key b := by
  induction l with
  | nil => simp [sortByKey]
  | cons a as ih => exact pairwise_insertSorted key a _ ih

theorem maxList_eq_none {l : List Nat} : maxList l = none ↔ l = [] := by
  cases l with
  | nil => simp [maxList]
  | cons a as =>
    simp only [maxList]
    rcases maxList as with _ | m2 <;> simp

theorem le_maxList {l : List Nat} {x m : Nat} (hx : x ∈ l)
    (hm : maxList l = some m) : x ≤ m := by
  induction l generalizing m with
  | nil => cases hx
  | cons a as ih =>
    simp only [maxList] at hm
    rcases h : maxList as with _ | m2 <;> rw [h] at hm <;> injection hm with hm
    · have hnil : as = [] := maxList_eq_none.mp h
      subst hnil
      rcases List.mem_cons.mp hx with rfl | hxs
      · omega
      · cases hxs
    · rcases List.mem_cons.mp hx with he | hxs
      · have h1 : a ≤ max a m2 := le_max_left a m2
        omega
      · have h1 : x ≤ m2 := ih hxs h
        have h2 : m2 ≤ max a m2 := le_max_right a m2
        omega

theorem maxList_mem {l : List Nat} {m : Nat} (hm : maxList l = some m) : m ∈ l := by
  induction l generalizing m with
  | nil => cases hm
  | cons a as ih =>
    simp only [maxList] at hm
    rcases h : maxList as with _ | m2 <;> rw [h] at hm <;> injection hm with hm
    · exact hm ▸ List.mem_cons_self a as
    · rcases Nat.le_total a m2 with hle | hle
      · rw [max_eq_right hle] at hm
        exact List.mem_cons_of_mem a (hm ▸ ih h)
      · rw [max_eq_left hle] at hm
        exact hm ▸ List.mem_cons_self a as

theorem maxList_isSome {l : List Nat} (h : l ≠ []) : ∃ m, maxList l = some m := by
  cases l with
  | nil => exact absurd rfl h
  | cons a as =>
    simp only [maxList]
    rcases maxList as with _ | m2 <;> exact ⟨_, rfl⟩

/-- The `dedup` maximum bounds every id of its group in the join. -/
theorem keepIdFor_ge {flt : List (RecordRow × SeenRow)} {rt uh : String} {m : Nat}
    (hm : keepIdFor flt rt uh = some m) :
    ∀ q ∈ flt, q.1.recordType = rt → q.1.uniqueHash = uh → q.1.id ≤ m := by
  intro q hq hrt huh
  refine le_maxList ?_ hm
  exact List.mem_map.mpr ⟨q, List.mem_filter.mpr ⟨hq, by simp [hrt, huh]⟩, rfl⟩

/-- Every nonempty group attains its `dedup` maximum at a join row. -/
theorem keepIdFor_attained {flt : List (RecordRow × SeenRow)} {q : RecordRow × SeenRow}
    (hq : q ∈ flt) :
    ∃ p ∈ flt, p.1.recordType = q.1.recordType ∧ p.1.uniqueHash = q.1.uniqueHash ∧
      keepIdFor flt p.1.recordType p.1.uniqueHash = some p.1.id := by
  have hqf : q ∈ flt.filter fun p =>
      decide (p.1.recordType = q.1.recordType ∧ p.1.uniqueHash = q.1.uniqueHash) :=
    List.mem_filter.mpr ⟨hq, by simp⟩
  have hne : ((flt.filter fun p =>
      decide (p.1.recordType = q.1.recordType ∧ p.1.uniqueHash = q.1.uniqueHash)).map
      fun p => p.1.id) ≠ [] := by
    intro hcon
    rw [List.map_eq_nil] at hcon
    rw [hcon] at hqf
    cases hqf
  obtain ⟨m, hm⟩ := maxList_isSome hne
  have hmem := maxList_mem hm
  obtain ⟨p, hpf, hpid⟩ := List.mem_map.mp hmem
  obtain ⟨hpflt, hpg⟩ := List.mem_filter.mp hpf
  have hpg2 := of_decide_eq_true hpg
  refine ⟨p, hpflt, hpg2.1, hpg2.2, ?_⟩
  unfold keepIdFor
  rw [hpg2.1, hpg2.2]
  rw [hm, hpid]

/-- C2 (amended): the build query keeps, per `(record_type, unique_hash)`
group of the join, exactly the rows carrying the group's greatest record id,
and returns them ordered ascending by that id; when every contributing
record joins at most one allowed seen-file row (the join multiplicity of
each record id is at most one), the output has at most one row per group.
Without that hypothesis a kept record is emitted once per matching seen-file
row, as the counterexample shows. -/
theorem getRecordsForBuildDedupSorted (db : DBState)
    (recordTypes allowedSourceIds : List String) (minSeenFileId : Option Nat)
    (hjoin : ∀ rid : Nat,
      (filteredJoin db recordTypes allowedSourceIds minSeenFileId).countP
        (fun p => decide (p.1.id = rid)) ≤ 1) :
    ((keptRowsSorted db recordTypes allowedSourceIds minSeenFileId).Pairwise
      fun p q => p.1.id ≤ q.1.id) ∧
    (∀ p ∈ keptRowsSorted db recordTypes allowedSourceIds minSeenFileId,
      p ∈ filteredJoin db recordTypes allowedSourceIds minSeenFileId ∧
      ∀ q ∈ filteredJoin db recordTypes allowedSourceIds minSeenFileId,
        q.1.recordType = p.1.recordType → q.1.uniqueHash = p.1.uniqueHash →
          q.1.id ≤ p.1.id) ∧
    (∀ q ∈ filteredJoin db recordTypes allowedSourceIds minSeenFileId,
      ∃ p ∈ keptRowsSorted db recordTypes allowedSourceIds minSeenFileId,
        p.1.recordType = q.1.recordType ∧ p.1.uniqueHash = q.1.uniqueHash) ∧
    (∀ rt uh : String,
      (keptRowsSorted db recordTypes allowedSourceIds minSeenFileId).countP
        (fun p => decide (p.1.recordType = rt ∧ p.1.uniqueHash = uh)) ≤ 1) ∧
    (recordTypes ≠ [] → allowedSourceIds ≠ [] →
      getRecordsForBuild db recordTypes allowedSourceIds minSeenFileId =
        (keptRowsSorted db recordTypes allowedSourceIds minSeenFileId).map fun p =>
          { recordType := p.1.recordType, dataJson := p.1.dataJson }) := by
  refine ⟨pairwise_sortByKey _ _, ?_, ?_, ?_, ?_⟩
  · intro p hp
    have hp1 := mem_sortByKey.mp hp
    obtain ⟨hpflt, hpk⟩ := List.mem_filter.mp hp1
    have hpk2 := of_decide_eq_true hpk
    exact ⟨hpflt, keepIdFor_ge hpk2⟩
  · intro q hq
    obtain ⟨p, hpflt, hrt, huh, hkeep⟩ := keepIdFor_attained hq
    refine ⟨p, ?_, hrt, huh⟩
    unfold keptRowsSorted
    exact mem_sortByKey.mpr (List.mem_filter.mpr ⟨hpflt, decide_eq_true hkeep⟩)
  · intro rt uh
    unfold keptRowsSorted
    rw [countP_sortByKey, List.countP_filter]
    rcases hk : keepIdFor (filteredJoin db recordTypes allowedSourceIds minSeenFileId)
        rt uh with _ | m
    · refine le_trans (le_of_eq (List.countP_eq_zero.mpr ?_)) (Nat.zero_le 1)
      intro p hp hcon
      simp only [Bool.and_eq_true, decide_eq_true_eq] at hcon
      obtain ⟨⟨h1, h2⟩, h3⟩ := hcon
      rw [h1, h2] at h3
      rw [hk] at h3
      cases h3
    · refine le_trans (List.countP_mono_left (q := fun p => decide (p.1.id = m)) ?_)
        (hjoin m)
      intro p hp hcon
      simp only [Bool.and_eq_true, decide_eq_true_eq] at hcon
      obtain ⟨⟨h1, h2⟩, h3⟩ := hcon
      rw [h1, h2, hk] at h3
      injection h3 with h3
      simp [h3]
  · intro h1 h2
    unfold getRecordsForBuild
    rw [if_neg (by simp [h1, h2])]

/-- C2 witness: on the single-record database the join multiplicity bound
holds and the output has at most one row for the pair. -/
theorem getRecordsForBuildDedupSorted_witness :
    (keptRowsSorted cutoffExampleDb ["t"] ["s"] none).countP
      (fun p => decide (p.1.recordType = "t" ∧ p.1.uniqueHash = "u")) ≤ 1 :=
  (getRecordsForBuildDedupSorted cutoffExampleDb ["t"] ["s"] none
    (fun _ => le_trans (List.countP_le_length _) (by decide))).2.2.2.1 "t" "u"

/-! ## Fragment-index lemmas (claims C6 and C7) -/

theorem lastIdxOf_eq_none {c : Char} {s : List Char} :
    lastIdxOf c s = none ↔ c ∉ s := by
  induction s with
  | nil => simp [lastIdxOf]
  | cons a as ih =>
    simp only [lastIdxOf]
    rcases h : lastIdxOf c as with _ | k <;> rw [h] at ih
    · constructor
      · intro hn
        by_cases hac : a = c
        · rw [if_pos hac] at hn
          cases hn
        · intro hm
          rcases List.mem_cons.mp hm with he | he
          · exact hac he.symm
          · exact ih.mp rfl he
      · intro hm
        have hac : ¬ a = c := fun hac => hm (List.mem_cons.mpr (Or.inl hac.symm))
        rw [if_neg hac]
    · constructor
      · intro hn
        cases hn
      · intro hm
        exact absurd (ih.mpr fun hcas => hm (List.mem_cons_of_mem a hcas)) (by simp [h])

theorem lastIdxOf_some_split {c : Char} {s : List Char} {k : Nat}
    (h : lastIdxOf c s = some k) :
    ∃ a b, s = a ++ c :: b ∧ a.length = k ∧ c ∉ b := by
  induction s generalizing k with
  | nil => cases h
  | cons x xs ih =>
    simp only [lastIdxOf] at h
    rcases h2 : lastIdxOf c xs with _ | k2 <;> rw [h2] at h
    · by_cases hxc : x = c
      · rw [if_pos hxc] at h
        injection h with h
        exact ⟨[], xs, by simp [hxc], h ▸ rfl, lastIdxOf_eq_none.mp h2⟩
      · rw [if_neg hxc] at h
        cases h
    · injection h with h
      obtain ⟨a2, b2, hs, hl, hnb⟩ := ih h2
      exact ⟨x :: a2, b2, by simp [hs], by simp [hl, h], hnb⟩

theorem lastIdxOf_append_last {c : Char} {b f : List Char} (hf : c ∉ f) :
    lastIdxOf c (b ++ c :: f) = some b.length := by
  induction b with
  | nil => simp [lastIdxOf, lastIdxOf_eq_none.mpr hf]
  | cons x xs ih => simp [lastIdxOf, ih]

/-- The element at the length of the left part of an append. -/
theorem getElem?_append_mid {x : α} (b f : List α) :
    (b ++ x :: f)[b.length]? = some x := by
  rw [List.getElem?_append_right (le_refl b.length)]
  simp

/-- A `vmess://` prefix on `b ++ '#' :: f` forces one on `b` (the header
contains no hash). -/
theorem vmess_isPrefixOf_append {b f : List Char}
    (hv : vmessHeader.isPrefixOf b = false) :
    vmessHeader.isPrefixOf (b ++ '#' :: f) = false := by
  by_contra hcon
  rw [Bool.not_eq_false, List.isPrefixOf_iff_prefix] at hcon
  by_cases hlen : vmessHeader.length ≤ b.length
  · rw [List.prefix_iff_eq_take] at hcon
    have hvb : vmessHeader = List.take vmessHeader.length b := by
      conv_lhs => rw [hcon]
      rw [List.take_append_of_le_length hlen]
    have : vmessHeader <+: b := List.prefix_iff_eq_take.mpr hvb
    exact absurd (List.isPrefixOf_iff_prefix.mpr this) (by simp [hv])
  · have hb : (b ++ '#' :: f)[b.length]? = some '#' := getElem?_append_mid b f
    obtain ⟨t, ht⟩ := hcon
    rw [← ht] at hb
    rw [List.getElem?_append] at hb
    rw [if_pos (by omega)] at hb
    have : '#' ∈ vmessHeader := by
      obtain ⟨hlt, he⟩ := List.getElem?_eq_some.mp hb
      exact he ▸ List.getElem_mem hlt
    exact absurd this (by decide)

/-- For a URI without the vmess header, `strip_proxy_remark` is exactly the
fragment-stripping tail. -/
theorem stripProxyRemark_not_vmess {u : List Char}
    (hv : vmessHeader.isPrefixOf u = false) :
    stripProxyRemark u = stripFragmentTail u := by
  unfold stripProxyRemark
  rw [hv]
  simp

/-- C6 (amended): `strip_proxy_remark` is idempotent on URIs that do not
start with `vmess://` and contain at most one `#`; with two or more `#`
characters each application strips one more fragment (see the
counterexample), because `rfind` locates only the last one. -/
theorem stripRemarkIdempotentSingleHash (u : List Char)
    (hv : vmessHeader.isPrefixOf u = false)
    (hc : u.countP (fun c => decide (c = '#')) ≤ 1) :
    stripProxyRemark (stripProxyRemark u) = stripProxyRemark u := by
  rw [stripProxyRemark_not_vmess hv]
  rcases hL : lastIdxOf '#' u with _ | k
  · have h1 : stripFragmentTail u = u := by
      unfold stripFragmentTail
      rw [hL]
    rw [h1, stripProxyRemark_not_vmess hv, h1]
  · rcases Nat.eq_zero_or_pos k with rfl | hk
    · have h1 : stripFragmentTail u = u := by
        unfold stripFragmentTail
        rw [hL]
        simp
      rw [h1, stripProxyRemark_not_vmess hv, h1]
    · obtain ⟨a, b, hs, hlen, hnb⟩ := lastIdxOf_some_split hL
      have h1 : stripFragmentTail u = a := by
        unfold stripFragmentTail
        rw [hL]
        simp only [if_pos hk]
        rw [hs, ← hlen, List.take_left]
      rw [h1]
      have hna : '#' ∉ a := by
        intro hin
        have hcount : 0 < a.countP (fun c => decide (c = '#')) :=
          List.countP_pos.mpr ⟨'#', hin, by simp⟩
        have h2 : u.countP (fun c => decide (c = '#')) =
            a.countP (fun c => decide (c = '#')) +
            ('#' :: b).countP (fun c => decide (c = '#')) := by
          rw [hs, List.countP_append]
        rw [List.countP_cons] at h2
        simp only [decide_true_eq_true, decide_eq_true_eq, if_true] at h2
        omega
      have hva : vmessHeader.isPrefixOf a = false := by
        by_contra hcon
        rw [Bool.not_eq_false, List.isPrefixOf_iff_prefix] at hcon
        have hpre : vmessHeader <+: u := by
          rw [hs]
          exact hcon.trans (List.prefix_append a ('#' :: b))
        exact absurd (List.isPrefixOf_iff_prefix.mpr hpre) (by simp [hv])
      rw [stripProxyRemark_not_vmess hva]
      unfold stripFragmentTail
      rw [lastIdxOf_eq_none.mpr hna]

/-- C6 witness: the single-fragment URI `ss://a#b` is a fixed point after
one stripping. -/
theorem stripRemarkIdempotentSingleHash_witness :
    stripProxyRemark (stripProxyRemark "ss://a#b".toList) =
      stripProxyRemark "ss://a#b".toList :=
  stripRemarkIdempotentSingleHash "ss://a#b".toList (by decide) (by decide)

/-! ## Canonicalization and parse-collapse lemmas (claim C7) -/

/-- Stripping a URI made of a hash-free base and one fragment returns the
base. -/
theorem strip_append_fragment {b f : List Char} (hb : b ≠ [])
    (hnf : '#' ∉ f) (hvb : vmessHeader.isPrefixOf b = false) :
    stripProxyRemark (b ++ '#' :: f) = b := by
  rw [stripProxyRemark_not_vmess (vmess_isPrefixOf_append hvb)]
  unfold stripFragmentTail
  rw [lastIdxOf_append_last hnf]
  show (if 0 < b.length then List.take b.length (b ++ '#' :: f) else b ++ '#' :: f) = b
  rw [if_pos (List.length_pos.mpr hb), List.take_left]

/-- The vmess branch of `strip_proxy_remark` depends only on the decoded
object with `ps` removed. -/
theorem vmess_strip_eq {u : List Char} {kvs : List (List Char × PyJson)}
    (hu : vmessHeader.isPrefixOf u = true) (hd : vmessDecodeObj u = some kvs) :
    stripProxyRemark u =
      vmessHeader ++ b64encodeBytes (utf8Encode (jsonDumps true
        (PyJson.obj (objErase kvs psKey)))) := by
  unfold stripProxyRemark
  rw [hu, hd]
  rfl

/-- A string equal to its own strip also survives each one-sided
`dropWhile`. -/
theorem pyStrip_eq_self_parts {l : List Char} (h : pyStrip l = l) :
    l.dropWhile isPySpace = l ∧ l.reverse.dropWhile isPySpace = l.reverse := by
  unfold pyStrip at h
  have hlen : ∀ m : List Char, (m.dropWhile isPySpace).length ≤ m.length :=
    fun m => (List.dropWhile_suffix isPySpace).length_le
  have h1 := congrArg List.length h
  simp only [List.length_reverse] at h1
  have e1 : (l.dropWhile isPySpace).length = l.length := by
    have a1 := hlen l
    have a2 := hlen (l.dropWhile isPySpace).reverse
    rw [List.length_reverse] at a2
    omega
  have hd1 : l.dropWhile isPySpace = l :=
    (List.dropWhile_suffix isPySpace).eq_of_length e1
  refine ⟨hd1, ?_⟩
  rw [hd1] at h
  have e2 : (l.reverse.dropWhile isPySpace).length = l.reverse.length := by
    rw [List.length_reverse]
    have := congrArg List.length h
    simp only [List.length_reverse] at this
    exact this
  exact (List.dropWhile_suffix isPySpace).eq_of_length e2

/-- A nonempty dropWhile-fixed list starts with a character failing the
predicate. -/
theorem dropWhile_self_head {p : Char → Bool} {c : Char} {t : List Char}
    (h : (c :: t).dropWhile p = c :: t) : p c = false := by
  by_cases hp : p c = true
  · rw [List.dropWhile_cons, if_pos hp] at h
    have := congrArg List.length h
    have h2 := (List.dropWhile_suffix p (l := t)).length_le
    simp only [List.length_cons] at this
    omega
  · simpa using hp

/-- Strip-fixed nonempty lines concatenated around one newline strip to
themselves. -/
theorem pyStrip_append_line {u1 u2 : List Char} (h1 : pyStrip u1 = u1)
    (h2 : pyStrip u2 = u2) (hne1 : u1 ≠ []) (hne2 : u2 ≠ []) :
    pyStrip (u1 ++ '\n' :: u2) = u1 ++ '\n' :: u2 := by
  obtain ⟨hd1, -⟩ := pyStrip_eq_self_parts h1
  obtain ⟨-, hr2⟩ := pyStrip_eq_self_parts h2
  obtain ⟨c1, t1, rfl⟩ : ∃ c t, u1 = c :: t := by
    cases u1 with
    | nil => exact absurd rfl hne1
    | cons c t => exact ⟨c, t, rfl⟩
  rcases hu2r : u2.reverse with _ | ⟨c2, t2⟩
  · exact absurd (by simpa using congrArg List.reverse hu2r) hne2
  rw [hu2r] at hr2
  have hc1 : isPySpace c1 = false := dropWhile_self_head hd1
  have hc2 : isPySpace c2 = false := dropWhile_self_head hr2
  have hstep1 : (c1 :: t1 ++ '\n' :: u2).dropWhile isPySpace =
      c1 :: t1 ++ '\n' :: u2 := by
    rw [List.cons_append, List.dropWhile_cons, if_neg (by simp [hc1])]
  have hrev : (c1 :: t1 ++ '\n' :: u2).reverse =
      c2 :: (t2 ++ '\n' :: (c1 :: t1).reverse) := by
    rw [show ('\n' :: u2 : List Char) = ['\n'] ++ u2 from rfl, ← List.append_assoc,
      List.reverse_append, hu2r]
    simp
  have hstep2 : ((c1 :: t1 ++ '\n' :: u2).reverse).dropWhile isPySpace =
      (c1 :: t1 ++ '\n' :: u2).reverse := by
    rw [hrev, List.dropWhile_cons, if_neg (by simp [hc2]), ← hrev]
  unfold pyStrip
  rw [hstep1, hstep2, List.reverse_reverse]

/-- A break-free tail is one whole line. -/
theorem splitlinesGo_no_break {v : List Char}
    (hv : ∀ c ∈ v, isLineBreakChar c = false) :
    ∀ acc, splitlinesGo v acc = [acc.reverse ++ v] := by
  induction v with
  | nil => intro acc; simp [splitlinesGo]
  | cons c cs ih =>
    intro acc
    unfold splitlinesGo
    rw [if_neg (by simp [hv c (List.mem_cons_self c cs)])]
    rw [ih (fun d hd => hv d (List.mem_cons_of_mem c hd)) (c :: acc)]
    simp

/-- One newline between a break-free head and a nonempty tail splits
there. -/
theorem splitlinesGo_split {u v : List Char}
    (hu : ∀ c ∈ u, isLineBreakChar c = false) (hv : v ≠ []) :
    ∀ acc, splitlinesGo (u ++ '\n' :: v) acc =
      (acc.reverse ++ u) :: splitlinesGo v [] := by
  induction u with
  | nil =>
    intro acc
    rw [List.nil_append]
    generalize hG : splitlinesGo v [] = G
    unfold splitlinesGo
    rw [if_pos (by decide)]
    rw [if_neg (by rintro ⟨hx, -⟩; exact absurd hx (by decide))]
    rw [if_neg hv, hG]
    simp
  | cons c cs ih =>
    intro acc
    rw [List.cons_append]
    generalize hG : splitlinesGo v [] = G
    rw [show splitlinesGo (c :: (cs ++ '\n' :: v)) acc =
          splitlinesGo (cs ++ '\n' :: v) (c :: acc) from by
        conv_lhs => unfold splitlinesGo
        rw [if_neg (by simp [hu c (List.mem_cons_self c cs)])]]
    rw [ih (fun d hd => hu d (List.mem_cons_of_mem c hd)) (c :: acc), hG]
    simp

/-- `splitlines` of two break-free lines joined by one newline. -/
theorem pySplitlines_pair {u v : List Char}
    (hu : ∀ c ∈ u, isLineBreakChar c = false)
    (hv : ∀ c ∈ v, isLineBreakChar c = false) (hvne : v ≠ []) :
    pySplitlines (u ++ '\n' :: v) = [u, v] := by
  unfold pySplitlines
  rw [if_neg (by simp)]
  rw [splitlinesGo_split hu hvne []]
  rw [splitlinesGo_no_break hv []]
  simp

/-- The substring test holds on every infix occurrence. -/
theorem containsSeq_of_infix {pat s : List Char} (h : pat <:+: s) :
    containsSeq pat s = true := by
  obtain ⟨l, r, hlr⟩ := h
  unfold containsSeq
  rw [List.any_eq_true]
  refine ⟨l.length, List.mem_range.mpr ?_, ?_⟩
  · have := congrArg List.length hlr
    simp only [List.length_append] at this
    omega
  · rw [List.isPrefixOf_iff_prefix, ← hlr, List.append_assoc, List.drop_left]
    exact List.prefix_append pat r

/-- Every recognized scheme ends in the separator. -/
theorem schemes_contain_sep : ∀ sch ∈ proxySchemes, "://".toList <:+ sch := by
  decide

/-- A text starting with a proxy line contains the `://` separator. -/
theorem containsSep_of_proxyLine {u rest : List Char} (h : isProxyLine u = true) :
    containsSeq "://".toList (u ++ rest) = true := by
  unfold isProxyLine at h
  rw [List.any_eq_true] at h
  obtain ⟨sch, hmem, hpre⟩ := h
  rw [List.isPrefixOf_iff_prefix] at hpre
  exact containsSeq_of_infix
    ((schemes_contain_sep sch hmem).isInfix.trans
      (hpre.trans (List.prefix_append u rest)).isInfix)

/-- When the cleaned text visibly contains `://`, the whole-input base64
branch of `parse` is skipped. -/
theorem npvtParseText_no_b64 {text : List Char}
    (hc : containsSeq "://".toList (pyStrip text) = true) :
    npvtParseText text = ((pySplitlines text).foldl parseLineStep ([], [])).1 := by
  simp only [npvtParseText]
  rw [hc]
  simp

/-- A normalize-fixed nonempty proxy line takes the fast path of the parse
loop. -/
theorem parseLineStep_proxy {acc : List ParsedRecord × List (List Char)}
    {u : List Char} (hs : normalizeText u = u) (hp : isProxyLine u = true)
    (hne : u ≠ []) :
    parseLineStep acc u = parseEmit acc (stripProxyRemark u) := by
  simp only [parseLineStep]
  rw [hs, List.isEmpty_eq_false.mpr hne, hp]
  simp

/-- C7: URIs that differ only in their fragment (or, for vmess, only in the
`ps` field of the decoded JSON object) have the same `strip_proxy_remark`
image, hence the same `unique_hash`; and a parse call over both lines emits
a single record. -/
theorem fragmentCollapse :
    (∀ b f1 f2 : List Char, b ≠ [] → '#' ∉ f1 → '#' ∉ f2 →
      vmessHeader.isPrefixOf b = false →
      stripProxyRemark (b ++ '#' :: f1) = stripProxyRemark (b ++ '#' :: f2) ∧
      hashString (stripProxyRemark (b ++ '#' :: f1)) =
        hashString (stripProxyRemark (b ++ '#' :: f2))) ∧
    (∀ (u1 u2 : List Char) (o1 o2 : List (List Char × PyJson)),
      vmessHeader.isPrefixOf u1 = true → vmessHeader.isPrefixOf u2 = true →
      vmessDecodeObj u1 = some o1 → vmessDecodeObj u2 = some o2 →
      objErase o1 psKey = objErase o2 psKey →
      stripProxyRemark u1 = stripProxyRemark u2 ∧
      hashString (stripProxyRemark u1) = hashString (stripProxyRemark u2)) ∧
    (∀ u1 u2 : List Char,
      (∀ c ∈ u1, c.toNat < 128) → (∀ c ∈ u2, c.toNat < 128) →
      isProxyLine u1 = true → isProxyLine u2 = true →
      pyStrip u1 = u1 → pyStrip u2 = u2 → u1 ≠ [] → u2 ≠ [] →
      (∀ c ∈ u1, isLineBreakChar c = false) →
      (∀ c ∈ u2, isLineBreakChar c = false) →
      stripProxyRemark u1 = stripProxyRemark u2 →
      npvtParseText (u1 ++ '\n' :: u2) =
        [{ uniqueHash := hashString (stripProxyRemark u1),
           line := stripProxyRemark u1 }]) := by
  refine ⟨?_, ?_, ?_⟩
  · intro b f1 f2 hb hf1 hf2 hvb
    rw [strip_append_fragment hb hf1 hvb, strip_append_fragment hb hf2 hvb]
    exact ⟨rfl, rfl⟩
  · intro u1 u2 o1 o2 hv1 hv2 hd1 hd2 herase
    rw [vmess_strip_eq hv1 hd1, vmess_strip_eq hv2 hd2, herase]
    exact ⟨rfl, rfl⟩
  · intro u1 u2 hascii1 hascii2 hp1 hp2 hs1 hs2 hne1 hne2 hb1 hb2 heq
    have hclean : pyStrip (u1 ++ '\n' :: u2) = u1 ++ '\n' :: u2 :=
      pyStrip_append_line hs1 hs2 hne1 hne2
    have hcont : containsSeq "://".toList (pyStrip (u1 ++ '\n' :: u2)) = true := by
      rw [hclean]
      exact containsSep_of_proxyLine hp1
    rw [npvtParseText_no_b64 hcont]
    rw [pySplitlines_pair hb1 hb2 hne2]
    rw [List.foldl_cons, List.foldl_cons, List.foldl_nil]
    rw [parseLineStep_proxy hs1 hp1 hne1]
    have e1 : parseEmit ([], []) (stripProxyRemark u1) =
        ([{ uniqueHash := hashString (stripProxyRemark u1),
            line := stripProxyRemark u1 }], [hashString (stripProxyRemark u1)]) := by
      simp [parseEmit]
    rw [e1, parseLineStep_proxy hs2 hp2 hne2, ← heq]
    simp [parseEmit]

/-- C7 witness: a vless pair differing in the fragment, a vmess pair
differing in the `ps` field, and the two-line parse of the vless pair. -/
theorem fragmentCollapse_witness :
    (stripProxyRemark ("vless://u@h:443".toList ++ '#' :: ['A']) =
      stripProxyRemark ("vless://u@h:443".toList ++ '#' :: ['B']) ∧
     hashString (stripProxyRemark ("vless://u@h:443".toList ++ '#' :: ['A'])) =
      hashString (stripProxyRemark ("vless://u@h:443".toList ++ '#' :: ['B']))) ∧
    (stripProxyRemark "vmess://eyJhZGQiOiJoIiwicHMiOiJBIn0=".toList =
      stripProxyRemark "vmess://eyJhZGQiOiJoIiwicHMiOiJCIn0=".toList ∧
     hashString (stripProxyRemark "vmess://eyJhZGQiOiJoIiwicHMiOiJBIn0=".toList) =
      hashString (stripProxyRemark "vmess://eyJhZGQiOiJoIiwicHMiOiJCIn0=".toList)) ∧
    npvtParseText ("vless://u@h:443#A".toList ++ '\n' :: "vless://u@h:443#B".toList) =
      [{ uniqueHash := hashString (stripProxyRemark "vless://u@h:443#A".toList),
         line := stripProxyRemark "vless://u@h:443#A".toList }] :=
  ⟨fragmentCollapse.1 "vless://u@h:443".toList ['A'] ['B']
      (by decide) (by decide) (by decide) (by decide),
   fragmentCollapse.2.1 "vmess://eyJhZGQiOiJoIiwicHMiOiJBIn0=".toList
      "vmess://eyJhZGQiOiJoIiwicHMiOiJCIn0=".toList
      [("add".toList, PyJson.str "h".toList), ("ps".toList, PyJson.str "A".toList)]
      [("add".toList, PyJson.str "h".toList), ("ps".toList, PyJson.str "B".toList)]
      (by decide) (by decide) (by rfl) (by rfl) (by rfl),
   fragmentCollapse.2.2 "vless://u@h:443#A".toList "vless://u@h:443#B".toList
      (by decide) (by decide) (by decide) (by decide) (by decide) (by decide)
      (by decide) (by decide) (by decide) (by decide) (by decide)⟩

/-! ## Build-loop refinement lemmas (claim C8) -/

theorem counterGet_nil (k : List Char) : counterGet [] k = 0 := rfl

theorem counterGet_cons (p : List Char × Nat) (ps : List (List Char × Nat))
    (k : List Char) :
    counterGet (p :: ps) k = if p.1 = k then p.2 else counterGet ps k := by
  unfold counterGet
  by_cases h : p.1 = k <;> simp [List.find?_cons, h]

theorem counterGet_map_self (qs : List (List Char × Nat)) (k : List Char) (n : Nat)
    (h : qs.any (fun p => decide (p.1 = k)) = true) :
    counterGet (qs.map fun p => if p.1 = k then (k, n) else p) k = n := by
  induction qs with
  | nil => simp at h
  | cons q qs ih =>
    rw [List.map_cons, counterGet_cons]
    by_cases hq : q.1 = k
    · rw [if_pos hq]
      simp
    · rw [if_neg hq]
      simp only [if_neg hq]
      refine ih ?_
      rw [List.any_cons] at h
      rcases Bool.or_eq_true_iff.mp h with h1 | h1
      · exact absurd (of_decide_eq_true h1) hq
      · exact h1

theorem counterGet_append_single (qs : List (List Char × Nat)) (k : List Char)
    (n : Nat) (h : ∀ p ∈ qs, p.1 ≠ k) :
    counterGet (qs ++ [(k, n)]) k = n := by
  induction qs with
  | nil => rw [List.nil_append, counterGet_cons, if_pos rfl]
  | cons q qs ih =>
    rw [List.cons_append, counterGet_cons,
      if_neg (h q (List.mem_cons_self q qs))]
    exact ih fun p hp => h p (List.mem_cons_of_mem q hp)

theorem counterGet_map_other (qs : List (List Char × Nat)) (k k2 : List Char)
    (n : Nat) (h : k2 ≠ k) :
    counterGet (qs.map fun p => if p.1 = k then (k, n) else p) k2 =
      counterGet qs k2 := by
  induction qs with
  | nil => rfl
  | cons q qs ih =>
    rw [List.map_cons, counterGet_cons, counterGet_cons]
    by_cases hq : q.1 = k
    · rw [if_pos hq]
      rw [if_neg (show ¬ ((k, n).1 = k2) from fun hc => h hc.symm)]
      rw [if_neg (show ¬ (q.1 = k2) from fun hc => h (hc.symm.trans hq))]
      exact ih
    · rw [if_neg hq]
      by_cases hq2 : q.1 = k2
      · rw [if_pos hq2, if_pos hq2]
      · rw [if_neg hq2, if_neg hq2]
        exact ih

theorem counterGet_append_other (qs : List (List Char × Nat)) (k k2 : List Char)
    (n : Nat) (h : k2 ≠ k) :
    counterGet (qs ++ [(k, n)]) k2 = counterGet qs k2 := by
  induction qs with
  | nil =>
    rw [List.nil_append, counterGet_cons, if_neg fun hc => h hc.symm]
  | cons q qs ih =>
    rw [List.cons_append, counterGet_cons, counterGet_cons]
    by_cases hq2 : q.1 = k2
    · rw [if_pos hq2, if_pos hq2]
    · rw [if_neg hq2, if_neg hq2]
      exact ih

theorem counterGet_set_self (ctr : List (List Char × Nat)) (k : List Char)
    (n : Nat) : counterGet (counterSet ctr k n) k = n := by
  unfold counterSet
  split
  · exact counterGet_map_self _ _ _ (by assumption)
  · rename_i hany
    refine counterGet_append_single _ _ _ ?_
    intro p hp hpk
    exact hany (List.any_eq_true.mpr ⟨p, hp, decide_eq_true hpk⟩)

theorem counterGet_set_other (ctr : List (List Char × Nat)) (k k2 : List Char)
    (n : Nat) (h : k2 ≠ k) :
    counterGet (counterSet ctr k n) k2 = counterGet ctr k2 := by
  unfold counterSet
  split
  · exact counterGet_map_other _ _ _ _ h
  · exact counterGet_append_other _ _ _ _ h

theorem mem_firstDedupAux {x : List Char} :
    ∀ {cs seen : List (List Char)},
      x ∈ firstDedupAux seen cs ↔ x ∈ cs ∧ x ∉ seen := by
  intro cs
  induction cs with
  | nil => intro seen; simp [firstDedupAux]
  | cons c cs ih =>
    intro seen
    unfold firstDedupAux
    by_cases hc : c ∈ seen
    · rw [if_pos hc, ih]
      constructor
      · rintro ⟨h1, h2⟩
        exact ⟨List.mem_cons_of_mem c h1, h2⟩
      · rintro ⟨h1, h2⟩
        rcases List.mem_cons.mp h1 with rfl | h1
        · exact absurd hc h2
        · exact ⟨h1, h2⟩
    · rw [if_neg hc]
      simp only [List.mem_cons, ih, List.mem_append, List.mem_singleton]
      constructor
      · rintro (rfl | ⟨h1, h2⟩)
        · exact ⟨Or.inl rfl, hc⟩
        · exact ⟨Or.inr h1, fun hcon => h2 (Or.inl hcon)⟩
      · rintro ⟨rfl | h1, h2⟩
        · exact Or.inl rfl
        · by_cases hxc : x = c
          · exact Or.inl hxc
          · refine Or.inr ⟨h1, fun hcon => ?_⟩
            rcases hcon with hcon | hcon
            · exact h2 hcon
            · exact hxc (by simpa using hcon)

theorem nodup_firstDedupAux :
    ∀ (cs seen : List (List Char)), (firstDedupAux seen cs).Nodup := by
  intro cs
  induction cs with
  | nil => intro seen; simp [firstDedupAux]
  | cons c cs ih =>
    intro seen
    unfold firstDedupAux
    by_cases hc : c ∈ seen
    · rw [if_pos hc]
      exact ih seen
    · rw [if_neg hc]
      refine List.nodup_cons.mpr ⟨?_, ih (seen ++ [c])⟩
      intro hcon
      exact absurd (List.mem_append.mpr (Or.inr (List.mem_singleton.mpr rfl)))
        (mem_firstDedupAux.mp hcon).2

theorem tagSpecGo_length :
    ∀ (cs prev : List (List Char)), (tagSpecGo prev cs).length = cs.length := by
  intro cs
  induction cs with
  | nil => intro prev; rfl
  | cons c cs ih => intro prev; simp [tagSpecGo, ih]

/-- `add_clean_remark` computes the spec-side tagged line and the expected
counter update. -/
theorem addCleanRemark_eq (u : List Char) (ctr : List (List Char × Nat)) :
    addCleanRemark u ctr =
      (taggedLineSpec u
        (schemeOf u ++ '-' :: Nat.toDigits 10 (counterGet ctr (schemeOf u) + 1)),
       counterSet ctr (schemeOf u) (counterGet ctr (schemeOf u) + 1)) := by
  simp only [addCleanRemark, taggedLineSpec]
  by_cases hv : vmessHeader.isPrefixOf u = true
  · simp only [hv, if_true]
    rcases hd : vmessDecodeObj u with _ | kvs <;> simp
  · simp only [hv, Bool.false_eq_true, if_false]
    unfold stripFragmentTail
    rfl

/-- The imperative build loop refines the declarative tagged-dedup form,
relative to any already-emitted prefix whose counter matches the scheme
counts of the seen canonicals. -/
theorem buildFold :
    ∀ (rs : List BuildRecIn) (lines seen : List (List Char))
      (ctr : List (List Char × Nat)),
      (∀ sch, counterGet ctr sch =
        (seen.filter fun c => decide (schemeOf c = sch)).length) →
      ∃ ctr2,
        rs.foldl buildStep (lines, seen, ctr) =
          (lines ++ tagSpecGo seen (firstDedupAux seen (canonsOf rs)),
           seen ++ firstDedupAux seen (canonsOf rs), ctr2) := by
  intro rs
  induction rs with
  | nil =>
    intro lines seen ctr hctr
    exact ⟨ctr, by simp [canonsOf, firstDedupAux, tagSpecGo]⟩
  | cons r rs ih =>
    intro lines seen ctr hctr
    rcases he : extractLine r with _ | l
    · have hstep : buildStep (lines, seen, ctr) r = (lines, seen, ctr) := by
        unfold buildStep
        rw [he]
      have hcanon : canonsOf (r :: rs) = canonsOf rs := by
        unfold canonsOf
        rw [List.filterMap_cons, he]
        rfl
      rw [List.foldl_cons, hstep, hcanon]
      exact ih lines seen ctr hctr
    · have hcanon : canonsOf (r :: rs) = stripProxyRemark l :: canonsOf rs := by
        unfold canonsOf
        rw [List.filterMap_cons, he]
        rfl
      by_cases hmem : stripProxyRemark l ∈ seen
      · have hstep : buildStep (lines, seen, ctr) r = (lines, seen, ctr) := by
          unfold buildStep
          rw [he]
          simp [hmem]
        have hded : firstDedupAux seen (stripProxyRemark l :: canonsOf rs) =
            firstDedupAux seen (canonsOf rs) := by
          conv_lhs => unfold firstDedupAux
          rw [if_pos hmem]
        rw [List.foldl_cons, hstep, hcanon, hded]
        exact ih lines seen ctr hctr
      · have hstep : buildStep (lines, seen, ctr) r =
            (lines ++ [taggedLineSpec (stripProxyRemark l)
              (schemeOf (stripProxyRemark l) ++ '-' ::
                Nat.toDigits 10 (counterGet ctr (schemeOf (stripProxyRemark l)) + 1))],
             seen ++ [stripProxyRemark l],
             counterSet ctr (schemeOf (stripProxyRemark l))
               (counterGet ctr (schemeOf (stripProxyRemark l)) + 1)) := by
          unfold buildStep
          rw [he]
          simp only [hmem, if_false, addCleanRemark_eq]
        have hded : firstDedupAux seen (stripProxyRemark l :: canonsOf rs) =
            stripProxyRemark l ::
              firstDedupAux (seen ++ [stripProxyRemark l]) (canonsOf rs) := by
          conv_lhs => unfold firstDedupAux
          rw [if_neg hmem]
        have htag : tagSpecGo seen (stripProxyRemark l ::
              firstDedupAux (seen ++ [stripProxyRemark l]) (canonsOf rs)) =
            taggedLineSpec (stripProxyRemark l)
              (schemeOf (stripProxyRemark l) ++ '-' ::
                Nat.toDigits 10 (counterGet ctr (schemeOf (stripProxyRemark l)) + 1)) ::
              tagSpecGo (seen ++ [stripProxyRemark l])
                (firstDedupAux (seen ++ [stripProxyRemark l]) (canonsOf rs)) := by
          conv_lhs => unfold tagSpecGo
          rw [hctr (schemeOf (stripProxyRemark l))]
        have hctr1 : ∀ s2, counterGet (counterSet ctr (schemeOf (stripProxyRemark l))
              (counterGet ctr (schemeOf (stripProxyRemark l)) + 1)) s2 =
            ((seen ++ [stripProxyRemark l]).filter fun x =>
              decide (schemeOf x = s2)).length := by
          intro s2
          by_cases hs2 : s2 = schemeOf (stripProxyRemark l)
          · subst hs2
            rw [counterGet_set_self, List.filter_append, hctr]
            simp
          · rw [counterGet_set_other _ _ _ _ hs2, hctr, List.filter_append]
            have : ¬ (schemeOf (stripProxyRemark l) = s2) := fun hcc => hs2 hcc.symm
            simp [this]
        obtain ⟨ctr2, hfold⟩ := ih _ _ _ hctr1
        refine ⟨ctr2, ?_⟩
        rw [List.foldl_cons, hstep, hfold, hcanon, hded, htag]
        simp

/-- C8: `build` emits exactly the first-occurrence-deduplicated canonical
URIs (one line per distinct canonical), each re-tagged with `scheme-N`
where `N` is one more than the number of earlier emitted canonicals of the
same scheme; for a fragment-free non-vmess canonical the emitted line is the
canonical with exactly one `#` followed by the tag (vmess lines instead get
`ps` set to the tag inside `taggedLineSpec`). -/
theorem npvtBuildTagged (records : List BuildRecIn) :
    npvtBuildLines records = tagSpec (firstDedup (canonsOf records)) ∧
    (npvtBuildLines records).length = (firstDedup (canonsOf records)).length ∧
    (firstDedup (canonsOf records)).Nodup ∧
    (∀ c, c ∈ firstDedup (canonsOf records) ↔ c ∈ canonsOf records) ∧
    (∀ c tag : List Char, vmessHeader.isPrefixOf c = false → '#' ∉ c → '#' ∉ tag →
      taggedLineSpec c tag = c ++ '#' :: tag ∧
      (taggedLineSpec c tag).countP (fun x => decide (x = '#')) = 1) := by
  obtain ⟨ctr2, hfold⟩ := buildFold records [] [] [] (fun sch => rfl)
  have h1 : npvtBuildLines records = tagSpec (firstDedup (canonsOf records)) := by
    unfold npvtBuildLines tagSpec firstDedup
    rw [hfold]
    simp
  refine ⟨h1, ?_, nodup_firstDedupAux _ _, ?_, ?_⟩
  · rw [h1]
    unfold tagSpec
    rw [tagSpecGo_length]
  · intro c
    unfold firstDedup
    rw [mem_firstDedupAux]
    simp
  · intro c tag hv hc htag
    have he : taggedLineSpec c tag = c ++ '#' :: tag := by
      unfold taggedLineSpec
      rw [hv]
      rw [show stripFragmentTail c = c from by
        unfold stripFragmentTail
        rw [lastIdxOf_eq_none.mpr hc]]
      simp
    refine ⟨he, ?_⟩
    rw [he, List.countP_append, List.countP_cons]
    have hzc : c.countP (fun x => decide (x = '#')) = 0 :=
      List.countP_eq_zero.mpr fun a ha hcon => hc ((of_decide_eq_true hcon) ▸ ha)
    have hzt : tag.countP (fun x => decide (x = '#')) = 0 :=
      List.countP_eq_zero.mpr fun a ha hcon => htag ((of_decide_eq_true hcon) ▸ ha)
    rw [hzc, hzt]
    simp

/-- C8 witness: two `ss` records with different remarks and one trojan
record collapse to two tagged lines; the tag shape at a concrete canonical
and tag. -/
theorem npvtBuildTagged_witness :
    npvtBuildLines [BuildRecIn.dataLine "ss://a#X".toList,
        BuildRecIn.dataLine "ss://a#Y".toList,
        BuildRecIn.topLine "trojan://t@h:1".toList] =
      tagSpec (firstDedup (canonsOf [BuildRecIn.dataLine "ss://a#X".toList,
        BuildRecIn.dataLine "ss://a#Y".toList,
        BuildRecIn.topLine "trojan://t@h:1".toList])) ∧
    npvtBuildLines [BuildRecIn.dataLine "ss://a#X".toList,
        BuildRecIn.dataLine "ss://a#Y".toList,
        BuildRecIn.topLine "trojan://t@h:1".toList] =
      ["ss://a#ss-1".toList, "trojan://t@h:1#trojan-1".toList] ∧
    (taggedLineSpec "ss://a".toList "ss-1".toList =
      "ss://a".toList ++ '#' :: "ss-1".toList ∧
     (taggedLineSpec "ss://a".toList "ss-1".toList).countP
       (fun x => decide (x = '#')) = 1) :=
  ⟨(npvtBuildTagged [BuildRecIn.dataLine "ss://a#X".toList,
      BuildRecIn.dataLine "ss://a#Y".toList,
      BuildRecIn.topLine "trojan://t@h:1".toList]).1, by decide,
   (npvtBuildTagged [BuildRecIn.dataLine "ss://a#X".toList,
      BuildRecIn.dataLine "ss://a#Y".toList,
      BuildRecIn.topLine "trojan://t@h:1".toList]).2.2.2.2 "ss://a".toList
     "ss-1".toList (by decide) (by decide) (by decide)⟩
